import Mathlib

/-!
# Sampling profiler (`native/src/profiler.cpp`) and zstd stream binding
(`native/src/jnizstd.cpp`): shallow embedding

Conventions of the embedding.

* Machine integers are natural numbers or integers, reduced modulo `2^w`
  at the places where the C++ code converts to a `w`-bit unsigned type.
* `absl::Time` is the integer number of nanoseconds since the Unix epoch, so
  the default-constructed `absl::Time()` is `0`; clock readings (`absl::Now()`)
  are arguments of the operations that take them.
* The host is little-endian (the byte images of `uint16_t`, `uint32_t`,
  `uint64_t` values are least significant byte first).
* The zstd library is an external collaborator.  Its error classification and
  its two size functions are the fields of `Zstd`; the codec state
  `ZSTD_CStream` is the finite list of answers it will give to the calls still
  to come, and a codec whose list is used up accepts all pending input, emits
  nothing and returns `0`.
* The JVMTI/JNI calls are arguments (their results are passed in).
* Mutexes and the atomic flag are not modelled: every operation is one
  sequential step.
-/

namespace Profiler

/-! ## Error codes and event tags -/

def PROF_ERROR (v : Nat) : Nat := v * 1000000
def PROF_ERR_NOJVMTI : Nat := PROF_ERROR 1
def PROF_ERR_ALREADY_RUNNING : Nat := PROF_ERROR 2
def PROF_ERR_NOT_RUNNING : Nat := PROF_ERROR 3
def PROF_ERR_BUFFER_FULL : Nat := PROF_ERROR 4
def PROF_ERR_COMPRESS : Nat := PROF_ERROR 5
def PROF_ERR_NO_METHOD : Nat := PROF_ERROR 6

def PROF_EV_NULL : Nat := 0
def PROF_EV_GC : Nat := 1

/-! ## Method registry -/

/-- The class `Method`: a sequential id and a sample counter, both `uint32_t`. -/
structure Method where
  id : Nat
  samples : Nat
deriving DecidableEq, Repr

/-- The constructor `Method(uint32_t *last_id) : id(++*last_id), samples(0)`:
returns the new record and the incremented counter. -/
def Method.ctor (last_id : Nat) : Method × Nat :=
  let next := (last_id + 1) % 2 ^ 32
  ({ id := next, samples := 0 }, next)

/-- The map `absl::flat_hash_map<jmethodID, Method>` as an association list
(a `jmethodID` is a natural number).  New keys go to the end; the iteration
order of the real table is unspecified. -/
abbrev MethodMap := List (Nat × Method)

/-- The pair of `Profile` fields `methods` and `last_method_id`. -/
structure Registry where
  methods : MethodMap
  last_method_id : Nat
deriving DecidableEq, Repr

/-- What `methods.try_emplace(key, &last_method_id)` leaves behind: the table,
the counter, and the record `.first->second` refers to. -/
structure Emplaced where
  methods : MethodMap
  last_method_id : Nat
  m : Method
deriving DecidableEq, Repr

/-- The call `methods.try_emplace(key, &last_method_id)`: an existing key keeps
its record and the constructor does not run; a new key gets `Method(&last)`. -/
def try_emplace (r : Registry) (key : Nat) : Emplaced :=
  match r.methods.lookup key with
  | some m => { methods := r.methods, last_method_id := r.last_method_id, m := m }
  | none =>
    let c := Method.ctor r.last_method_id
    { methods := r.methods ++ [(key, c.1)], last_method_id := c.2, m := c.1 }

/-- The statement `m->samples++` on the record stored under `key`. -/
def bumpSamples (ms : MethodMap) (key : Nat) : MethodMap :=
  ms.map (fun e => if e.1 = key then (e.1, { e.2 with samples := (e.2.samples + 1) % 2 ^ 32 }) else e)

/-- One iteration of the frame loop of `sample()` for the handle `key`:
`try_emplace`, read `m->id`, `m->samples++`.  Returns the registry and the id. -/
def resolve (r : Registry) (key : Nat) : Registry × Nat :=
  let e := try_emplace r key
  ({ methods := bumpSamples e.methods key, last_method_id := e.last_method_id }, e.m.id)

/-- The frame loop of `sample()` over the handles of a stack, in order: the
registry afterwards and the ids written to the scratch buffer. -/
def resolveAll (r : Registry) : List Nat → Registry × List Nat
  | [] => (r, [])
  | key :: rest =>
    let s := resolve r key
    let t := resolveAll s.1 rest
    (t.1, s.2 :: t.2)

/-- The registry of a new `Profile`: `methods()`, `last_method_id(0)`. -/
def Registry.fresh : Registry := { methods := [], last_method_id := 0 }

/-- Id stored under a handle, if the handle is registered. -/
def Registry.idOf (r : Registry) (key : Nat) : Option Nat :=
  (r.methods.lookup key).map (fun m => m.id)

/-! ## Byte images -/

/-- The low `n` bytes of `v`, least significant first. -/
def leBytes : Nat → Nat → List Nat
  | 0, _ => []
  | n + 1, v => (v % 256) :: leBytes n (v / 256)

/-- The bytes of a `uint32_t` array. -/
def wordsToBytes (ws : List Nat) : List Nat :=
  ws.flatMap (fun w => leBytes 4 (w % 2 ^ 32))

/-- The bytes of a `uint64_t` array. -/
def quadsToBytes (qs : List Nat) : List Nat :=
  qs.flatMap (fun q => leBytes 8 (q % 2 ^ 64))

/-- The two `uint32_t` words that overlay one `jlong`, low word first. -/
def jlongWords (v : Int) : List Nat :=
  let q := (v % 2 ^ 64).toNat
  [q % 2 ^ 32, q / 2 ^ 32]

/-- The conversion of a 64-bit signed value to `uint32_t`. -/
def toU32 (v : Int) : Nat := (v % 2 ^ 32).toNat

/-- The conversion of a 64-bit signed value to `uint64_t`. -/
def toU64 (v : Int) : Nat := (v % 2 ^ 64).toNat

/-- The conversion of an unsigned value to `jint` / `jsize` / `int`. -/
def toJint (v : Nat) : Int :=
  if v % 2 ^ 32 < 2 ^ 31 then Int.ofNat (v % 2 ^ 32) else Int.ofNat (v % 2 ^ 32) - 2 ^ 32

/-- A C string handed to `push(s, strlen(s) + 1)`: the bytes up to the first
zero byte, then the terminator. -/
def cstr (s : List Nat) : List Nat := s.takeWhile (fun b => b != 0) ++ [0]

/-! ## The zstd collaborator -/

/-- The zstd entry points `push`/`end` consult: `ZSTD_isError`,
`ZSTD_getErrorCode`, the constant `ZSTD_error_dstSize_tooSmall`,
`ZSTD_CStreamOutSize()` and `ZSTD_compressBound`. -/
structure Zstd where
  isError : Nat → Bool
  getErrorCode : Nat → Nat
  dstSize_tooSmall : Nat
  cStreamOutSize : Nat
  compressBound : Nat → Nat

/-- The library as zstd 1.5 ships it: a return value is an error when it
exceeds `(size_t)-ZSTD_error_maxCode`, its code is its negation, and the bound
is `ZSTD_COMPRESSBOUND`. -/
def zstdRef : Zstd where
  isError := fun code => decide (2 ^ 64 - 120 < code)
  getErrorCode := fun code => if 2 ^ 64 - 120 < code then 2 ^ 64 - code else 0
  dstSize_tooSmall := 70
  cStreamOutSize := 131591
  compressBound := fun n => n + n / 256 + (if n < 131072 then (131072 - n) / 2048 else 0)

/-- One answer of the codec to `ZSTD_compressStream2` or `ZSTD_endStream`: the
`size_t` it returns, how many input bytes it takes, the bytes it emits. -/
structure CodecCall where
  ret : Nat
  consumed : Nat
  produced : List Nat
deriving DecidableEq, Repr

/-- The struct `ZSTD_outBuffer` without `dst`, which always points at
`data[0]` of the owning compressor (`resize()` re-anchors it after every
`data.resize`). -/
structure OutBuffer where
  size : Nat
  pos : Nat
deriving DecidableEq, Repr

/-- The struct `ZSTD_inBuffer` without `src`. -/
structure InBuffer where
  size : Nat
  pos : Nat
deriving DecidableEq, Repr

/-- The class `ZStdCompressor`.  The field `pushed` is not in the source: it
records, in call order, the byte range handed to each `push`. -/
structure ZStdCompressor where
  out : OutBuffer
  data : List Nat
  cstream : List CodecCall
  last_error : Nat
  pushed : List (List Nat)
deriving DecidableEq, Repr

/-- The call `std::vector<uint8_t>::resize(n)`. -/
def vectorResize (data : List Nat) (n : Nat) : List Nat :=
  data.take n ++ List.replicate (n - data.length) 0

/-- Store `bytes` into `data` from index `pos` on (inside the vector). -/
def writeAt (data : List Nat) (pos : Nat) (bytes : List Nat) : List Nat :=
  data.take pos ++ bytes ++ data.drop (pos + bytes.length)

/-- The method `resize()`: `out.dst = &data[0]; out.size = data.size()`. -/
def ZStdCompressor.resize (z : ZStdCompressor) : ZStdCompressor :=
  { z with out := { z.out with size := z.data.length } }

/-- The two statements `data.resize(data.size() + n); resize();`. -/
def ZStdCompressor.grow (z : ZStdCompressor) (n : Nat) : ZStdCompressor :=
  ZStdCompressor.resize { z with data := vectorResize z.data (z.data.length + n) }

/-- The constructor `ZStdCompressor(min_size)` around the codec state that
`ZSTD_createCStream()` returns. -/
def ZStdCompressor.ctor (min_size : Nat) (cstream : List CodecCall) : ZStdCompressor :=
  ZStdCompressor.resize
    { out := { size := 0, pos := 0 }, data := List.replicate min_size 0,
      cstream := cstream, last_error := 0, pushed := [] }

/-- The effect of one codec answer on the compressor: the codec writes at most
the free space `out.size - out.pos` and advances `out.pos` by what it wrote. -/
def ZStdCompressor.codecWrite (z : ZStdCompressor) (c : CodecCall) (rest : List CodecCall) :
    ZStdCompressor :=
  let w := c.produced.take (z.out.size - z.out.pos)
  { z with
    cstream := rest
    data := writeAt z.data z.out.pos w
    out := { z.out with pos := z.out.pos + w.length } }

/-- The effect of one codec answer on the input cursor: at most the pending
input is taken. -/
def InBuffer.advance (i : InBuffer) (c : CodecCall) : InBuffer :=
  { i with pos := i.pos + min c.consumed (i.size - i.pos) }

/-- What a run of `push` or `end` yields: the returned `size_t`, the compressor
afterwards, and, not in the source, the codec invocations of the run in order:
for each one the compressor the loop handed to the codec and the answer the
codec gave. -/
structure PushResult where
  ret : Nat
  z : ZStdCompressor
  calls : List (ZStdCompressor × CodecCall)
deriving DecidableEq, Repr

/-- The compressor at each codec invocation of a run, in order, followed by
the compressor the run ends with: entry `i + 1` is the state the loop went on
with after invocation `i`. -/
def PushResult.states (r : PushResult) : List ZStdCompressor :=
  r.calls.map Prod.fst ++ [r.z]

/-- The assignment `if (last_error != 0) { last_error = err; }`. -/
def ZStdCompressor.recordError (z : ZStdCompressor) (err : Nat) : ZStdCompressor :=
  if z.last_error ≠ 0 then { z with last_error := err } else z

/-- The loop of `push` from the point where `cs` is the codec's remaining
answers and `z` the compressor.  With no answers left the codec takes all
pending input and returns `0`, so the loop ends and `last_error` is returned;
that last exchange is not listed among the invocations. -/
def pushLoop (Z : Zstd) (max_bound : Nat) :
    List CodecCall → ZStdCompressor → InBuffer → PushResult
  | [], z, _ => { ret := z.last_error, z := { z with cstream := [] }, calls := [] }
  | c :: cs, z, inBuf =>
    if inBuf.pos < inBuf.size then
      let z1 := z.codecWrite c cs
      let in1 := inBuf.advance c
      let err := c.ret
      if Z.isError err then
        if Z.getErrorCode err = Z.dstSize_tooSmall then
          let r := pushLoop Z max_bound cs (z1.grow max_bound) in1
          { r with calls := (z, c) :: r.calls }
        else
          { ret := err, z := z1.recordError err, calls := [(z, c)] }
      else
        let r := pushLoop Z max_bound cs z1 in1
        { r with calls := (z, c) :: r.calls }
    else
      { ret := z.last_error, z := z, calls := [] }

/-- The value `std::max(ZSTD_CStreamOutSize(), ZSTD_compressBound(len))`. -/
def maxBound (Z : Zstd) (len : Nat) : Nat := max Z.cStreamOutSize (Z.compressBound len)

/-- The part of `push` before the loop: the growth when
`out.pos + max_bound > out.size`. -/
def ZStdCompressor.pushPrologue (Z : Zstd) (z : ZStdCompressor) (len : Nat) : ZStdCompressor :=
  if z.out.pos + maxBound Z len > z.out.size then z.grow (maxBound Z len) else z

/-- The method `push(raw, len)` with `raw` the `len` bytes at the pointer.
Buffer sizes and positions are sizes of objects in memory, so the `size_t` sum
`out.pos + max_bound` is taken without wrap-around. -/
def ZStdCompressor.push (Z : Zstd) (z : ZStdCompressor) (raw : List Nat) : PushResult :=
  let max_bound := maxBound Z raw.length
  let z1 := z.pushPrologue Z raw.length
  pushLoop Z max_bound z1.cstream { z1 with pushed := z1.pushed ++ [raw] }
    { size := raw.length, pos := 0 }

/-- The loop of `end` from the point where `cs` is the codec's remaining
answers; with no answers left `ZSTD_endStream` returns `0`. -/
def endLoop (Z : Zstd) : List CodecCall → ZStdCompressor → PushResult
  | [], z => { ret := z.last_error, z := { z with cstream := [] }, calls := [] }
  | c :: cs, z =>
    let z1 := z.codecWrite c cs
    let err := c.ret
    if err = 0 then
      { ret := z1.last_error, z := z1, calls := [(z, c)] }
    else if Z.isError err then
      if Z.getErrorCode err = Z.dstSize_tooSmall then
        let r := endLoop Z cs (z1.grow Z.cStreamOutSize)
        { r with calls := (z, c) :: r.calls }
      else
        { ret := err, z := z1.recordError err, calls := [(z, c)] }
    else
      let r := endLoop Z cs z1
      { r with calls := (z, c) :: r.calls }

/-- The method `end()`. -/
def ZStdCompressor.end_ (Z : Zstd) (z : ZStdCompressor) : PushResult :=
  endLoop Z z.cstream z

/-! ## The profiling session -/

/-- The struct `jvmtiFrameInfo`: a `jmethodID` and a `jlocation`. -/
structure jvmtiFrameInfo where
  method : Nat
  location : Int
deriving DecidableEq, Repr

/-- The struct `jvmtiStackInfo`; `frame_buffer[0]` is the most recently
invoked frame. -/
structure jvmtiStackInfo where
  thread : Nat
  state : Int
  frame_buffer : List jvmtiFrameInfo
  frame_count : Int
deriving DecidableEq, Repr

/-- The class `Profile` without its mutexes and without the scratch array
`sample_buffer`, which `sample()` fills from offset 0 on every call and which
is a local list there. -/
structure Profile where
  thread_count : Nat
  thread_list : List Nat
  num_samples : Int
  running : Bool
  samples : ZStdCompressor
  header : ZStdCompressor
  sample_buffer_size : Nat
  sample_rate : Int
  methods : MethodMap
  last_method_id : Nat
  start_time : Int
  stop_time : Int
  event_buffer : List Nat
  event_buffer_start : Int
  last_gc_start : Int
deriving DecidableEq, Repr

/-- The constructor of `Profile`; `now` is the reading of `absl::Now()`, the
two lists are the codec states of the two streams, and `sample_buffer_bytes`
is the (non-negative) `jint` converted to `size_t`. -/
def Profile.ctor (thread_count : Nat) (thread_list : List Nat) (sample_buffer_bytes : Nat)
    (sample_rate_us : Int) (now : Int) (csSamples csHeader : List CodecCall) : Profile :=
  { thread_count := thread_count
    thread_list := thread_list
    num_samples := 0
    running := true
    samples := ZStdCompressor.ctor sample_buffer_bytes csSamples
    header := ZStdCompressor.ctor 0x1000 csHeader
    sample_buffer_size := 0x100FF * 4
    sample_rate := sample_rate_us * 1000
    methods := []
    last_method_id := 0
    start_time := 0
    stop_time := 0
    event_buffer := []
    event_buffer_start := now
    last_gc_start := 0 }

/-- The registry fields of a session. -/
def Profile.registry (p : Profile) : Registry :=
  { methods := p.methods, last_method_id := p.last_method_id }

/-- The method `push_event_time(time)`. -/
def Profile.push_event_time (p : Profile) (time : Int) : Profile :=
  { p with event_buffer := p.event_buffer ++ [toU32 (time - p.event_buffer_start)] }

/-- The method `write_event_buffer()`; `now` is its reading of `absl::Now()`. -/
def Profile.write_event_buffer (Z : Zstd) (p : Profile) (now : Int) : Profile :=
  let p1 := { p with event_buffer := p.event_buffer ++ [PROF_EV_NULL] }
  let p2 := { p1 with samples := (p1.samples.push Z (wordsToBytes p1.event_buffer)).z }
  let p3 := { p2 with event_buffer := [] }
  let p4 := p3.push_event_time now
  { p4 with event_buffer_start := now }

/-- The method `gc_start()`. -/
def Profile.gc_start (p : Profile) (now : Int) : Profile :=
  { p with last_gc_start := now }

/-- The method `gc_finish()`. -/
def Profile.gc_finish (p : Profile) (now : Int) : Profile :=
  if p.last_gc_start ≠ 0 then
    let p1 := { p with event_buffer := p.event_buffer ++ [PROF_EV_GC] }
    let p2 := p1.push_event_time p.last_gc_start
    p2.push_event_time now
  else p

/-- The first statements of `run()`: `start_time = last; event_buffer_start =
last; event_buffer.push_back(0); // time offset`. -/
def Profile.runBegin (p : Profile) (last : Int) : Profile :=
  { p with start_time := last, event_buffer_start := last, event_buffer := p.event_buffer ++ [0] }

/-- The location `frame_buffer[i].location`. -/
def locationAt (frames : List jvmtiFrameInfo) (i : Nat) : Int :=
  match frames[i]? with
  | some f => f.location
  | none => 0

/-- The words `sample()` appends to the scratch buffer for a thread with
`frame_count > 0`, given the ids the frame loop wrote. -/
def threadWords (info : jvmtiStackInfo) (ids : List Nat) : List Nat :=
  [toU32 info.state, toU32 info.frame_count] ++ ids ++
    [toU32 (locationAt info.frame_buffer (info.frame_count.toNat - 1))]

/-- One iteration of the thread loop of `sample()`, with `buf` the scratch words
below `sample_offset`: the code of an early `return` if one is taken, the
session, and the scratch words afterwards. -/
def sampleThread (Z : Zstd) (p : Profile) (buf : List Nat) (info : jvmtiStackInfo) :
    Option Nat × Profile × List Nat :=
  if info.frame_count ≤ 0 then
    (none, p, buf)
  else if p.samples.out.pos ≥ (p.samples.out.size + 2 ^ 64 - p.sample_buffer_size) % 2 ^ 64 then
    (some PROF_ERR_BUFFER_FULL, p, buf)
  else
    let r := resolveAll p.registry
      ((info.frame_buffer.take info.frame_count.toNat).map (fun f => f.method))
    let buf1 := buf ++ threadWords info r.2
    let pr := p.samples.push Z (wordsToBytes buf1)
    let p1 := { p with
      methods := r.1.methods, last_method_id := r.1.last_method_id, samples := pr.z }
    if Z.isError pr.ret then
      (some PROF_ERR_COMPRESS, p1, buf1)
    else
      (none, p1, [])

/-- The thread loop of `sample()` over the remaining entries of `stack_info`.
The first component is the code of an early `return`, if one was taken. -/
def sampleThreads (Z : Zstd) : List jvmtiStackInfo → Profile → List Nat → Option Nat × Profile
  | [], p, _ => (none, p)
  | info :: rest, p, buf =>
    match sampleThread Z p buf info with
    | (some code, p1, _) => (some code, p1)
    | (none, p1, buf1) => sampleThreads Z rest p1 buf1

/-- The words `sample()` writes before the thread loop: the elapsed time and
the heap-info vector. -/
def tickHeader (duration : Int) (heapinfo : List Int) : List Nat :=
  [toU32 duration] ++ heapinfo.flatMap jlongWords

/-- The method `sample(env, duration)`.  `traces` is the result of
`GetThreadListStackTraces` (error code, stack infos), `heapinfo` the array the
static Java call returns, `freeErr` the result of `jvmtiFree(stack_info)`, and
`now` the clock reading inside `write_event_buffer()`.  Durations are in
nanoseconds. -/
def Profile.sample (Z : Zstd) (p : Profile) (traces : Nat × List jvmtiStackInfo)
    (heapinfo : List Int) (duration : Int) (freeErr : Nat) (now : Int) : Nat × Profile :=
  if traces.1 ≠ 0 then (traces.1, p)
  else
    match sampleThreads Z (traces.2.take p.thread_count) p (tickHeader duration heapinfo) with
    | (some code, p1) => (code, p1)
    | (none, p1) =>
      if freeErr ≠ 0 then (freeErr, p1)
      else (0, p1.write_event_buffer Z now)

/-- The JVMTI symbol look-ups of `stop()`: `GetThreadInfo(...).name`, the class
signature of the declaring class of a method, and `GetMethodName`. -/
structure Jvmti where
  threadName : Nat → List Nat
  classSignature : Nat → List Nat
  methodName : Nat → List Nat
  methodSignature : Nat → List Nat

/-- The thread loop of `stop()`: `header.push(info.name, strlen(info.name) + 1)`
for each remaining thread. -/
def pushThreadNames (Z : Zstd) (J : Jvmti) : ZStdCompressor → List Nat → ZStdCompressor
  | z, [] => z
  | z, t :: rest => pushThreadNames Z J (z.push Z (cstr (J.threadName t))).z rest

/-- The method loop of `stop()` over the remaining table entries: four pushes
per entry. -/
def pushMethods (Z : Zstd) (J : Jvmti) : ZStdCompressor → MethodMap → ZStdCompressor
  | z, [] => z
  | z, e :: rest =>
    let z1 := (z.push Z (leBytes 4 (e.2.id % 2 ^ 32))).z
    let z2 := (z1.push Z (cstr (J.classSignature e.1))).z
    let z3 := (z2.push Z (cstr (J.methodName e.1))).z
    let z4 := (z3.push Z (cstr (J.methodSignature e.1))).z
    pushMethods Z J z4 rest

/-- The method `stop(env, extra, extra_length)`, entered after the worker has
left `run()`. -/
def Profile.stop (Z : Zstd) (J : Jvmti) (p : Profile) (extra : List Nat) : Nat × Profile :=
  let p0 := { p with running := false }
  let e := p0.samples.end_ Z
  let p1 := { p0 with samples := e.z }
  if Z.isError e.ret then (PROF_ERR_COMPRESS, p1)
  else
    let hh : List Nat :=
      [toU64 p1.num_samples, toU64 ((p1.stop_time - p1.start_time).tdiv 1000), extra.length,
        p1.thread_count, p1.methods.length]
    let h1 := (p1.header.push Z (quadsToBytes hh)).z
    let h2 := (h1.push Z extra).z
    let h3 := pushThreadNames Z J h2 (p1.thread_list.take p1.thread_count)
    let h4 := pushMethods Z J h3 p1.methods
    let e2 := h4.end_ Z
    let p2 := { p1 with header := e2.z }
    if Z.isError e2.ret then (PROF_ERR_COMPRESS, p2)
    else (0, p2)

/-- A call on the event buffer of a session, with the clock reading it takes:
the GC-start callback, the GC-finish callback, or the flush
`write_event_buffer()`. -/
inductive GcOp where
  | gcStart (now : Int)
  | gcFinish (now : Int)
  | flush (now : Int)
deriving DecidableEq, Repr

/-- The clock reading of a call. -/
def GcOp.time : GcOp → Int
  | .gcStart t => t
  | .gcFinish t => t
  | .flush t => t

/-- Is the call a GC-start callback. -/
def GcOp.isStart : GcOp → Bool
  | .gcStart _ => true
  | _ => false

/-- Is the call a flush. -/
def GcOp.isFlush : GcOp → Bool
  | .flush _ => true
  | _ => false

/-- One call on the session. -/
def Profile.applyOp (Z : Zstd) (p : Profile) : GcOp → Profile
  | .gcStart t => p.gc_start t
  | .gcFinish t => p.gc_finish t
  | .flush t => p.write_event_buffer Z t

/-- A sequence of calls on the session, in order. -/
def Profile.applyOps (Z : Zstd) (p : Profile) (ops : List GcOp) : Profile :=
  ops.foldl (Profile.applyOp Z) p

/-! ## Control surface -/

/-- The globals `jvmti` (is it non-null), `active_profile`, `profiler_klass`
and `get_heap_info`. -/
structure Control where
  jvmti : Bool
  active_profile : Option Profile
  profiler_klass : Option Nat
  get_heap_info : Option Nat
deriving DecidableEq, Repr

/-- The entry point `Java_abex_os_debug_Profiler_start0`.  `heapinfoId` is the
result of `GetStaticMethodID`, `runAgentThread` that of `RunAgentThread`. -/
def start0 (c : Control) (klass : Nat) (heapinfoId : Option Nat) (threads : List Nat)
    (sample_size_bytes : Nat) (sample_rate_us : Int) (now : Int)
    (csSamples csHeader : List CodecCall) (runAgentThread : Nat) : Nat × Control :=
  if c.jvmti = false then (PROF_ERR_NOJVMTI, c)
  else if c.active_profile ≠ none then (PROF_ERR_ALREADY_RUNNING, c)
  else
    let c1 := { c with profiler_klass := some klass, get_heap_info := heapinfoId }
    if heapinfoId = none then (PROF_ERR_NO_METHOD, c1)
    else
      let p := Profile.ctor threads.length threads sample_size_bytes sample_rate_us now
        csSamples csHeader
      (runAgentThread, { c1 with active_profile := some p })

/-- The entry point `Java_abex_os_debug_Profiler_stop0`. -/
def stop0 (Z : Zstd) (J : Jvmti) (c : Control) (extra : List Nat) : Nat × Control :=
  if c.jvmti = false then (PROF_ERR_NOJVMTI, c)
  else
    match c.active_profile with
    | none => (PROF_ERR_NOT_RUNNING, c)
    | some p =>
      let r := p.stop Z J extra
      (r.1, { c with active_profile := some r.2 })

/-- The entry point `Java_abex_os_debug_Profiler_free`; `none` is the failure
of `assert(active_profile->running.load() == false)`. -/
def free (c : Control) : Option (Nat × Control) :=
  match c.active_profile with
  | none => some (PROF_ERR_NOT_RUNNING, c)
  | some p =>
    if p.running then none
    else some (0, { c with active_profile := none, profiler_klass := none })

/-- The JNI call `NewByteArray(length)`: no array for a negative length. -/
def NewByteArray (length : Int) : Option (List Nat) :=
  if length < 0 then none else some (List.replicate length.toNat 0)

/-- The JNI call `SetByteArrayRegion(array, start, len, buf)`: a region that
does not lie inside the array is not copied (the call raises
`ArrayIndexOutOfBoundsException` instead).  JNI does not define the call on a
null array; here it leaves the null reference, which is what `getBuffer` then
returns. -/
def SetByteArrayRegion (array : Option (List Nat)) (start len : Int) (buf : List Nat) :
    Option (List Nat) :=
  match array with
  | none => none
  | some a =>
    if start < 0 ∨ len < 0 ∨ start + len > a.length then some a
    else some (writeAt a start.toNat (buf.take len.toNat))

/-- The value of `uint16_t{'RP'}`. -/
def byteMarker : Nat := (0x52 * 256 + 0x50) % 2 ^ 16

/-- The entry point `Java_abex_os_debug_Profiler_getBuffer`; `none` is the
null reference. -/
def getBuffer (c : Control) : Option (List Nat) :=
  match c.active_profile with
  | none => none
  | some p =>
    let headerSize := p.header.out.pos % 2 ^ 64
    let samplesSize := p.samples.out.pos % 2 ^ 64
    let ret := NewByteArray (toJint (2 + 8 + headerSize + samplesSize))
    let offset : Int := 0
    let len : Int := 2
    let ret := SetByteArrayRegion ret offset len (leBytes 2 byteMarker)
    let offset := offset + len
    let len : Int := 8
    let ret := SetByteArrayRegion ret offset len (leBytes 8 headerSize)
    let offset := offset + len
    let len : Int := toJint headerSize
    let ret := SetByteArrayRegion ret offset len p.header.data
    let offset := offset + len
    let len : Int := toJint samplesSize
    SetByteArrayRegion ret offset len p.samples.data

/-! ## The zstd stream binding (`native/src/jnizstd.cpp`)

A `jlong` is given by its 64-bit two's-complement pattern, an `int` by its
32-bit pattern; `int` is 32 bits wide and a shift into its sign bit yields the
pattern with that bit set. -/

/-- The conversion of an `int` to `jlong` (sign extension), from the 32-bit
pattern to the 64-bit pattern. -/
def signExtend32 (w : Nat) : Nat :=
  if w % 2 ^ 32 < 2 ^ 31 then w % 2 ^ 32 else w % 2 ^ 32 + (2 ^ 64 - 2 ^ 32)

/-- The effect of one codec answer on an output cursor: the codec writes at
most the free space and advances `pos` by what it wrote. -/
def OutBuffer.advance (o : OutBuffer) (c : CodecCall) : OutBuffer :=
  { o with pos := o.pos + min c.produced.length (o.size - o.pos) }

/-- The locals of `compress0` after the guarded call of
`ZSTD_compressStream2`, and the Java array `out` as the call leaves it. -/
structure Compress0Locals where
  result : Nat
  outBuffer : OutBuffer
  inBuffer : InBuffer
  out : List Nat
deriving DecidableEq, Repr

/-- The part of `compress0` from the set-up of the two buffers to the release
of the arrays.  `out` is the Java output array, `dstOk` and `srcOk` say whether
`GetPrimitiveArrayCritical` returned a pointer for `out` and for `in`, and
`codec op` is the answer of the codec to the directive `op`.  The `jint` sum
`inOff + inLen` is taken without overflow. -/
def compress0Call (inOff inLen : Int) (out : List Nat) (dstOk srcOk : Bool)
    (codec : Int → CodecCall) (op : Int) : Compress0Locals :=
  let outBuffer : OutBuffer := { size := out.length, pos := 0 }
  let inBuffer : InBuffer := { size := toU64 (inOff + inLen), pos := toU64 inOff }
  if dstOk && srcOk then
    let c := codec op
    { result := c.ret
      outBuffer := outBuffer.advance c
      inBuffer := inBuffer.advance c
      out := writeAt out 0 (c.produced.take out.length) }
  else
    { result := 0, outBuffer := outBuffer, inBuffer := inBuffer, out := out }

/-- The expression `(((jlong) (inBuffer.pos - inOff)) << 32) | ((more & 1) << 31)
| (outBuffer.pos & 0x7FFF'FFFF)`: the first operand is a `jlong`, the second
an `int` that `|` converts to `jlong`, the third a `size_t`. -/
def packedOut (inBufferPos : Nat) (inOff : Int) (more : Bool) (outBufferPos : Nat) : Nat :=
  (((((inBufferPos + 2 ^ 64 - toU64 inOff) % 2 ^ 64) <<< 32) % 2 ^ 64)
    ||| signExtend32 ((((if more then 1 else 0) &&& 1) <<< 31) % 2 ^ 32))
    ||| (outBufferPos &&& 0x7FFFFFFF)

/-- What `compress0` hands back to Java: the returned `jlong`, whether an
`IOException` is pending, and the output array. -/
structure Compress0Result where
  ret : Nat
  threw : Bool
  out : List Nat
deriving DecidableEq, Repr

/-- The entry point `Java_abex_os_debug_ZstdOutputStream_compress0`; `stream`
is the `jlong` handle (`0` is the null stream). -/
def compress0 (Z : Zstd) (stream : Nat) (inOff inLen : Int) (out : List Nat)
    (dstOk srcOk : Bool) (codec : Int → CodecCall) (op : Int) : Compress0Result :=
  if stream = 0 then { ret := 0, threw := false, out := out }
  else
    let l := compress0Call inOff inLen out dstOk srcOk codec op
    if Z.isError l.result then { ret := 0, threw := true, out := l.out }
    else
      let more : Bool := decide (l.result > 0)
      { ret := packedOut l.inBuffer.pos inOff more l.outBuffer.pos, threw := false,
        out := l.out }

/-- The value `inBuffer.pos - inOff` as `compress0` computes it (in `size_t`). -/
def consumed0 (l : Compress0Locals) (inOff : Int) : Nat :=
  (l.inBuffer.pos + 2 ^ 64 - toU64 inOff) % 2 ^ 64

/-! ## Theorems: method registry -/

theorem lookup_eq_none_iff_not_mem_keys (ms : MethodMap) (k : Nat) :
    ms.lookup k = none ↔ k ∉ ms.map Prod.fst := by
  induction ms with
  | nil => simp
  | cons e rest ih =>
    obtain ⟨a, b⟩ := e
    by_cases h : k = a
    · subst h; simp [List.lookup]
    · have h2 : (k == a) = false := by simpa using h
      simp [List.lookup, h2, ih, h]

theorem bumpSamples_keys (ms : MethodMap) (k : Nat) :
    (bumpSamples ms k).map Prod.fst = ms.map Prod.fst := by
  induction ms with
  | nil => rfl
  | cons e rest ih =>
    simp only [bumpSamples, List.map_cons] at ih ⊢
    rw [ih]
    by_cases h : e.1 = k <;> simp [h]

theorem bumpSamples_ids (ms : MethodMap) (k : Nat) :
    (bumpSamples ms k).map (fun e => e.2.id) = ms.map (fun e => e.2.id) := by
  induction ms with
  | nil => rfl
  | cons e rest ih =>
    simp only [bumpSamples, List.map_cons] at ih ⊢
    rw [ih]
    by_cases h : e.1 = k <;> simp [h]

theorem bumpSamples_lookup_id (ms : MethodMap) (k j : Nat) :
    ((bumpSamples ms k).lookup j).map (fun m => m.id) = (ms.lookup j).map (fun m => m.id) := by
  induction ms with
  | nil => rfl
  | cons e rest ih =>
    obtain ⟨a, b⟩ := e
    simp only [bumpSamples, List.map_cons] at ih ⊢
    generalize hg : (if (a, b).1 = k then
      ((a, b).1, { (a, b).2 with samples := ((a, b).2.samples + 1) % 2 ^ 32 }) else (a, b)) = e2
    have h1 : e2.1 = a := by rw [← hg]; split <;> rfl
    have h2 : e2.2.id = b.id := by rw [← hg]; split <;> rfl
    obtain ⟨a2, b2⟩ := e2
    simp only at h1 h2
    subst h1
    rw [List.lookup_cons, List.lookup_cons]
    cases hjk : (j == a2)
    · simpa using ih
    · simp [h2]

theorem dedup_length_le_of_subset {a b : List Nat} (h : a ⊆ b) :
    a.dedup.length ≤ b.dedup.length := by
  rw [← List.card_toFinset, ← List.card_toFinset]
  apply Finset.card_le_card
  intro x hx
  rw [List.mem_toFinset] at hx ⊢
  exact h hx

theorem try_emplace_of_mem (r : Registry) (k : Nat) (h : k ∈ r.methods.map Prod.fst) :
    (try_emplace r k).methods = r.methods ∧
    (try_emplace r k).last_method_id = r.last_method_id ∧
    r.idOf k = some (try_emplace r k).m.id := by
  have hne : r.methods.lookup k ≠ none := fun hn =>
    (lookup_eq_none_iff_not_mem_keys r.methods k).mp hn h
  unfold try_emplace Registry.idOf
  cases hl : r.methods.lookup k with
  | none => exact absurd hl hne
  | some m => simp

theorem try_emplace_of_not_mem (r : Registry) (k : Nat) (h : k ∉ r.methods.map Prod.fst) :
    (try_emplace r k).methods = r.methods ++ [(k, (try_emplace r k).m)] ∧
    (try_emplace r k).last_method_id = (r.last_method_id + 1) % 2 ^ 32 ∧
    (try_emplace r k).m.id = (r.last_method_id + 1) % 2 ^ 32 := by
  have hn : r.methods.lookup k = none := (lookup_eq_none_iff_not_mem_keys r.methods k).mpr h
  unfold try_emplace
  rw [hn]
  simp [Method.ctor]

theorem resolve_idOf_stable (r : Registry) (k j i : Nat) (h : r.idOf j = some i) :
    (resolve r k).1.idOf j = some i := by
  unfold resolve Registry.idOf at *
  simp only
  rw [bumpSamples_lookup_id]
  by_cases hk : k ∈ r.methods.map Prod.fst
  · rw [(try_emplace_of_mem r k hk).1]; exact h
  · rw [(try_emplace_of_not_mem r k hk).1, List.lookup_append]
    cases hl : r.methods.lookup j with
    | none => rw [hl] at h; simp at h
    | some m => rw [hl] at h; simpa using h

theorem resolve_idOf_self (r : Registry) (k : Nat) :
    (resolve r k).1.idOf k = some (resolve r k).2 := by
  by_cases hk : k ∈ r.methods.map Prod.fst
  · have h := (try_emplace_of_mem r k hk).2.2
    exact resolve_idOf_stable r k k _ h
  · unfold resolve Registry.idOf
    simp only
    rw [bumpSamples_lookup_id, (try_emplace_of_not_mem r k hk).1, List.lookup_append,
      (lookup_eq_none_iff_not_mem_keys r.methods k).mpr hk]
    simp [List.lookup]

theorem resolveAll_append (r : Registry) (a b : List Nat) :
    resolveAll r (a ++ b) =
      ((resolveAll (resolveAll r a).1 b).1, (resolveAll r a).2 ++ (resolveAll (resolveAll r a).1 b).2) := by
  induction a generalizing r with
  | nil => simp [resolveAll]
  | cons k rest ih => simp [resolveAll, ih]

theorem resolveAll_idOf_stable (hs : List Nat) (r : Registry) (j i : Nat)
    (h : r.idOf j = some i) : (resolveAll r hs).1.idOf j = some i := by
  induction hs generalizing r with
  | nil => simpa [resolveAll] using h
  | cons k rest ih =>
    simp only [resolveAll]
    exact ih _ (resolve_idOf_stable r k j i h)

/-- Invariant of the frame loop: from a table whose ids are `1..n` in order,
whose counter is `n` and whose keys are distinct, resolving `hs` keeps all
three, and the keys afterwards are the old keys and the handles of `hs`. -/
theorem resolveAll_invariant (hs : List Nat) (r : Registry)
    (hids : r.methods.map (fun e => e.2.id) = List.range' 1 r.methods.length)
    (hlast : r.last_method_id = r.methods.length)
    (hnd : (r.methods.map Prod.fst).Nodup)
    (hbound : (r.methods.map Prod.fst ++ hs).dedup.length < 2 ^ 32) :
    (resolveAll r hs).1.methods.map (fun e => e.2.id)
        = List.range' 1 (resolveAll r hs).1.methods.length ∧
    (resolveAll r hs).1.last_method_id = (resolveAll r hs).1.methods.length ∧
    ((resolveAll r hs).1.methods.map Prod.fst).Nodup ∧
    (∀ x, x ∈ (resolveAll r hs).1.methods.map Prod.fst ↔ x ∈ r.methods.map Prod.fst ∨ x ∈ hs) := by
  induction hs generalizing r with
  | nil => simp [resolveAll, hids, hlast, hnd]
  | cons k rest ih =>
    simp only [resolveAll]
    by_cases hk : k ∈ r.methods.map Prod.fst
    · obtain ⟨hm, hl, _⟩ := try_emplace_of_mem r k hk
      have hkeys : (resolve r k).1.methods.map Prod.fst = r.methods.map Prod.fst := by
        simp only [resolve]; rw [bumpSamples_keys, hm]
      have hlen : (resolve r k).1.methods.length = r.methods.length := by
        have := congrArg List.length hkeys
        simpa using this
      have h1 : (resolve r k).1.methods.map (fun e => e.2.id)
          = List.range' 1 (resolve r k).1.methods.length := by
        rw [hlen]; simp only [resolve]; rw [bumpSamples_ids, hm]; exact hids
      have h2 : (resolve r k).1.last_method_id = (resolve r k).1.methods.length := by
        rw [hlen]; simp only [resolve]; rw [hl]; exact hlast
      have h3 : ((resolve r k).1.methods.map Prod.fst).Nodup := by rw [hkeys]; exact hnd
      have h4 : ((resolve r k).1.methods.map Prod.fst ++ rest).dedup.length < 2 ^ 32 := by
        rw [hkeys]
        refine lt_of_le_of_lt (dedup_length_le_of_subset ?_) hbound
        intro x hx
        simp only [List.mem_append, List.mem_cons] at hx ⊢
        tauto
      obtain ⟨g1, g2, g3, g4⟩ := ih _ h1 h2 h3 h4
      refine ⟨g1, g2, g3, ?_⟩
      intro x
      rw [g4 x, hkeys]
      simp only [List.mem_cons]
      constructor
      · rintro (h | h)
        · exact Or.inl h
        · exact Or.inr (Or.inr h)
      · rintro (h | h | h)
        · exact Or.inl h
        · subst h; exact Or.inl hk
        · exact Or.inr h
    · obtain ⟨hm, hl, hid⟩ := try_emplace_of_not_mem r k hk
      have hkeys : (resolve r k).1.methods.map Prod.fst = r.methods.map Prod.fst ++ [k] := by
        simp only [resolve]; rw [bumpSamples_keys, hm]; simp
      have hlen : (resolve r k).1.methods.length = r.methods.length + 1 := by
        have := congrArg List.length hkeys
        simpa using this
      have hnd2 : (r.methods.map Prod.fst ++ [k]).Nodup := by
        rw [List.nodup_append]
        refine ⟨hnd, List.nodup_singleton k, ?_⟩
        intro x hx hx2
        simp only [List.mem_singleton] at hx2
        subst hx2; exact hk hx
      have hsmall : r.methods.length + 1 < 2 ^ 32 := by
        have hle : (r.methods.map Prod.fst ++ [k]).dedup.length
            ≤ (r.methods.map Prod.fst ++ k :: rest).dedup.length := by
          apply dedup_length_le_of_subset
          intro x hx
          simp only [List.mem_append, List.mem_cons, List.mem_singleton] at hx ⊢
          tauto
        rw [List.Nodup.dedup hnd2] at hle
        simp only [List.length_append, List.length_map, List.length_singleton] at hle
        omega
      have hmod : (r.last_method_id + 1) % 2 ^ 32 = r.methods.length + 1 := by
        rw [hlast]; exact Nat.mod_eq_of_lt hsmall
      have h1 : (resolve r k).1.methods.map (fun e => e.2.id)
          = List.range' 1 (resolve r k).1.methods.length := by
        rw [hlen]; simp only [resolve]; rw [bumpSamples_ids, hm]
        rw [List.map_append, hids, List.range'_concat]
        simp only [List.map_cons, List.map_nil]
        rw [hid, hmod]
        simp [Nat.add_comm]
      have h2 : (resolve r k).1.last_method_id = (resolve r k).1.methods.length := by
        rw [hlen]; simp only [resolve]; rw [hl]; exact hmod
      have h3 : ((resolve r k).1.methods.map Prod.fst).Nodup := by rw [hkeys]; exact hnd2
      have h4 : ((resolve r k).1.methods.map Prod.fst ++ rest).dedup.length < 2 ^ 32 := by
        rw [hkeys]; simpa using hbound
      obtain ⟨g1, g2, g3, g4⟩ := ih _ h1 h2 h3 h4
      refine ⟨g1, g2, g3, ?_⟩
      intro x
      rw [g4 x, hkeys]
      simp only [List.mem_append, List.mem_cons, List.mem_singleton, List.not_mem_nil, or_false]
      tauto

/-- From the empty registry: the ids are `1..N`, the counter and the table size
are `N`, the keys are distinct and are the handles seen, where `N` is the
number of distinct handles. -/
theorem resolveAll_fresh (hs : List Nat) (hN : hs.dedup.length < 2 ^ 32) :
    (resolveAll Registry.fresh hs).1.methods.map (fun e => e.2.id)
        = List.range' 1 hs.dedup.length ∧
    (resolveAll Registry.fresh hs).1.last_method_id = hs.dedup.length ∧
    (resolveAll Registry.fresh hs).1.methods.length = hs.dedup.length ∧
    (∀ x, x ∈ (resolveAll Registry.fresh hs).1.methods.map Prod.fst ↔ x ∈ hs) := by
  obtain ⟨g1, g2, g3, g4⟩ := resolveAll_invariant hs Registry.fresh (by simp [Registry.fresh])
    (by simp [Registry.fresh]) (by simp [Registry.fresh]) (by simpa [Registry.fresh] using hN)
  have hmem : ∀ x, x ∈ (resolveAll Registry.fresh hs).1.methods.map Prod.fst ↔ x ∈ hs := by
    intro x; rw [g4 x]; simp [Registry.fresh]
  have hlen : (resolveAll Registry.fresh hs).1.methods.length = hs.dedup.length := by
    have hperm : ((resolveAll Registry.fresh hs).1.methods.map Prod.fst).Perm hs.dedup := by
      rw [List.perm_ext_iff_of_nodup g3 (List.nodup_dedup hs)]
      intro x; rw [hmem x, List.mem_dedup]
    simpa using hperm.length_eq
  exact ⟨by rw [g1, hlen], by rw [g2, hlen], hlen, hmem⟩

/-- Claim C1.  On a fresh registry, for every sequence `hs` of method-handle
resolutions with fewer than `2^32` distinct handles (the counter is a
`uint32_t`): the ids in the table are exactly `1, ..., N` for `N` the number of
distinct handles, and `last_method_id = methods.size() = N`; at every position
of the sequence, a handle not seen before is assigned the next sequential id
(one more than the number of distinct handles before it) and advances the
counter by one, a handle seen before yields the id it already has and leaves
the counter alone; and the id a resolution yields is still the id of that
handle at the end of the sequence. -/
theorem C1_registry_ids_dense_and_stable (hs : List Nat) (hN : hs.dedup.length < 2 ^ 32) :
    (resolveAll Registry.fresh hs).1.methods.map (fun e => e.2.id)
        = List.range' 1 hs.dedup.length ∧
    (resolveAll Registry.fresh hs).1.last_method_id = hs.dedup.length ∧
    (resolveAll Registry.fresh hs).1.methods.length = hs.dedup.length ∧
    (∀ pre h post, hs = pre ++ h :: post →
      (h ∉ pre →
        (try_emplace (resolveAll Registry.fresh pre).1 h).m.id = pre.dedup.length + 1 ∧
        (try_emplace (resolveAll Registry.fresh pre).1 h).last_method_id
          = (resolveAll Registry.fresh pre).1.last_method_id + 1) ∧
      (h ∈ pre →
        (resolveAll Registry.fresh pre).1.idOf h
          = some (try_emplace (resolveAll Registry.fresh pre).1 h).m.id ∧
        (try_emplace (resolveAll Registry.fresh pre).1 h).last_method_id
          = (resolveAll Registry.fresh pre).1.last_method_id) ∧
      (resolveAll Registry.fresh hs).1.idOf h
        = some (try_emplace (resolveAll Registry.fresh pre).1 h).m.id) := by
  obtain ⟨f1, f2, f3, _⟩ := resolveAll_fresh hs hN
  refine ⟨f1, f2, f3, ?_⟩
  intro pre h post hsplit
  have hpre : pre.dedup.length < 2 ^ 32 := by
    refine lt_of_le_of_lt (dedup_length_le_of_subset ?_) hN
    intro x hx; rw [hsplit]; simp [hx]
  have hpre1 : (pre ++ [h]).dedup.length < 2 ^ 32 := by
    refine lt_of_le_of_lt (dedup_length_le_of_subset ?_) hN
    intro x hx; rw [hsplit]
    simp only [List.mem_append, List.mem_cons, List.mem_singleton, List.not_mem_nil,
      or_false] at hx ⊢
    tauto
  obtain ⟨_, p2, _, p4⟩ := resolveAll_fresh pre hpre
  refine ⟨?_, ?_, ?_⟩
  · intro hnew
    have hk : h ∉ (resolveAll Registry.fresh pre).1.methods.map Prod.fst := by
      rw [p4 h]; exact hnew
    obtain ⟨_, hl, hid⟩ := try_emplace_of_not_mem _ h hk
    have hcount : (pre ++ [h]).dedup.length = pre.dedup.length + 1 := by
      rw [← List.card_toFinset, ← List.card_toFinset, List.toFinset_append]
      have : Disjoint pre.toFinset [h].toFinset := by
        rw [Finset.disjoint_left]
        intro a ha ha2
        rw [List.mem_toFinset] at ha ha2
        simp only [List.mem_singleton] at ha2
        subst ha2; exact hnew ha
      rw [Finset.card_union_of_disjoint this]
      simp
    have hmod : ((resolveAll Registry.fresh pre).1.last_method_id + 1) % 2 ^ 32
        = pre.dedup.length + 1 := by
      rw [p2]; apply Nat.mod_eq_of_lt; omega
    exact ⟨by rw [hid, hmod], by rw [hl, hmod, p2]⟩
  · intro hold
    have hk : h ∈ (resolveAll Registry.fresh pre).1.methods.map Prod.fst := by
      rw [p4 h]; exact hold
    obtain ⟨_, hl, hid⟩ := try_emplace_of_mem _ h hk
    exact ⟨hid, hl⟩
  · rw [hsplit, resolveAll_append]
    simp only [resolveAll]
    apply resolveAll_idOf_stable
    exact resolve_idOf_self _ h

/-- Witness for C1: the handles `7, 9, 7, 4`. -/
theorem C1_registry_ids_dense_and_stable_witness :
    (resolveAll Registry.fresh [7, 9, 7, 4]).1.methods.map (fun e => e.2.id) = [1, 2, 3] ∧
    (resolveAll Registry.fresh [7, 9, 7, 4]).2 = [1, 2, 1, 3] ∧
    (resolveAll Registry.fresh [7, 9, 7, 4]).1.last_method_id = 3 := by
  have h := C1_registry_ids_dense_and_stable [7, 9, 7, 4] (by decide)
  refine ⟨?_, by decide, ?_⟩
  · rw [h.1]; decide
  · rw [h.2.1]; decide

/-! ## Theorems: the compressor -/

theorem vectorResize_length (data : List Nat) (n : Nat) : (vectorResize data n).length = n := by
  simp only [vectorResize, List.length_append, List.length_take, List.length_replicate]
  omega

theorem writeAt_length (data : List Nat) (pos : Nat) (bytes : List Nat)
    (h : pos + bytes.length ≤ data.length) : (writeAt data pos bytes).length = data.length := by
  simp only [writeAt, List.length_append, List.length_take, List.length_drop]
  omega

theorem grow_out_pos (z : ZStdCompressor) (n : Nat) : (z.grow n).out.pos = z.out.pos := rfl

theorem grow_data_length (z : ZStdCompressor) (n : Nat) :
    (z.grow n).data.length = z.data.length + n := by
  simp [ZStdCompressor.grow, ZStdCompressor.resize, vectorResize_length]

theorem grow_out_size (z : ZStdCompressor) (n : Nat) :
    (z.grow n).out.size = (z.grow n).data.length := rfl

theorem grow_pushed (z : ZStdCompressor) (n : Nat) : (z.grow n).pushed = z.pushed := rfl

theorem grow_last_error (z : ZStdCompressor) (n : Nat) : (z.grow n).last_error = z.last_error :=
  rfl

theorem codecWrite_pushed (z : ZStdCompressor) (c : CodecCall) (cs : List CodecCall) :
    (z.codecWrite c cs).pushed = z.pushed := rfl

theorem codecWrite_last_error (z : ZStdCompressor) (c : CodecCall) (cs : List CodecCall) :
    (z.codecWrite c cs).last_error = z.last_error := rfl

theorem codecWrite_out_size (z : ZStdCompressor) (c : CodecCall) (cs : List CodecCall) :
    (z.codecWrite c cs).out.size = z.out.size := rfl

theorem codecWrite_pos_le (z : ZStdCompressor) (c : CodecCall) (cs : List CodecCall)
    (h : z.out.pos ≤ z.out.size) : (z.codecWrite c cs).out.pos ≤ (z.codecWrite c cs).out.size := by
  simp only [ZStdCompressor.codecWrite, List.length_take]
  omega

theorem codecWrite_data_length (z : ZStdCompressor) (c : CodecCall) (cs : List CodecCall)
    (h : z.out.pos ≤ z.out.size) (hs : z.out.size = z.data.length) :
    (z.codecWrite c cs).data.length = z.data.length := by
  simp only [ZStdCompressor.codecWrite]
  apply writeAt_length
  simp only [List.length_take]
  omega

theorem recordError_pushed (z : ZStdCompressor) (err : Nat) :
    (z.recordError err).pushed = z.pushed := by
  unfold ZStdCompressor.recordError; split <;> rfl

/-- The field `last_error` is only ever overwritten when it is already
non-zero, so a zero stays zero. -/
theorem recordError_last_error_zero (z : ZStdCompressor) (err : Nat) (h : z.last_error = 0) :
    (z.recordError err).last_error = 0 := by
  unfold ZStdCompressor.recordError
  rw [if_neg (by simp [h])]; exact h

theorem pushLoop_pushed (Z : Zstd) (B : Nat) (cs : List CodecCall) (z : ZStdCompressor)
    (inBuf : InBuffer) : (pushLoop Z B cs z inBuf).z.pushed = z.pushed := by
  induction cs generalizing z inBuf with
  | nil => rfl
  | cons c cs ih =>
    simp only [pushLoop]
    split
    · split
      · split
        · simp only [ih, grow_pushed, codecWrite_pushed]
        · simp only [recordError_pushed, codecWrite_pushed]
      · simp only [ih, codecWrite_pushed]
    · rfl

theorem pushLoop_last_error_zero (Z : Zstd) (B : Nat) (cs : List CodecCall) (z : ZStdCompressor)
    (inBuf : InBuffer) (h : z.last_error = 0) : (pushLoop Z B cs z inBuf).z.last_error = 0 := by
  induction cs generalizing z inBuf with
  | nil => exact h
  | cons c cs ih =>
    simp only [pushLoop]
    split
    · split
      · split
        · exact ih _ _ (by simpa [grow_last_error, codecWrite_last_error] using h)
        · exact recordError_last_error_zero _ _ (by simpa [codecWrite_last_error] using h)
      · exact ih _ _ (by simpa [codecWrite_last_error] using h)
    · exact h

theorem pushPrologue_pushed (Z : Zstd) (z : ZStdCompressor) (len : Nat) :
    (z.pushPrologue Z len).pushed = z.pushed := by
  unfold ZStdCompressor.pushPrologue; split <;> rfl

theorem pushPrologue_last_error (Z : Zstd) (z : ZStdCompressor) (len : Nat) :
    (z.pushPrologue Z len).last_error = z.last_error := by
  unfold ZStdCompressor.pushPrologue; split <;> rfl

/-- Every `push` hands exactly its argument to the stream, whatever the codec
answers. -/
theorem push_pushed (Z : Zstd) (z : ZStdCompressor) (raw : List Nat) :
    (z.push Z raw).z.pushed = z.pushed ++ [raw] := by
  simp only [ZStdCompressor.push, pushLoop_pushed, pushPrologue_pushed]

/-- A compressor whose `last_error` is zero keeps it zero through `push`. -/
theorem push_last_error_zero (Z : Zstd) (z : ZStdCompressor) (raw : List Nat)
    (h : z.last_error = 0) : (z.push Z raw).z.last_error = 0 := by
  simp only [ZStdCompressor.push]
  exact pushLoop_last_error_zero Z _ _ _ _ (by simpa [pushPrologue_last_error] using h)

theorem endLoop_pushed (Z : Zstd) (cs : List CodecCall) (z : ZStdCompressor) :
    (endLoop Z cs z).z.pushed = z.pushed := by
  induction cs generalizing z with
  | nil => rfl
  | cons c cs ih =>
    simp only [endLoop]
    split
    · rfl
    · split
      · split
        · simp only [ih, grow_pushed, codecWrite_pushed]
        · simp only [recordError_pushed, codecWrite_pushed]
      · simp only [ih, codecWrite_pushed]

theorem end_pushed (Z : Zstd) (z : ZStdCompressor) : (z.end_ Z).z.pushed = z.pushed :=
  endLoop_pushed Z _ z

theorem ctor_anchor (min_size : Nat) (cs : List CodecCall) :
    (ZStdCompressor.ctor min_size cs).out.pos ≤ (ZStdCompressor.ctor min_size cs).out.size ∧
    (ZStdCompressor.ctor min_size cs).out.size = (ZStdCompressor.ctor min_size cs).data.length ∧
    (ZStdCompressor.ctor min_size cs).last_error = 0 := by
  simp [ZStdCompressor.ctor, ZStdCompressor.resize]

theorem grow_anchor (z : ZStdCompressor) (n : Nat) (hp : z.out.pos ≤ z.out.size)
    (hs : z.out.size = z.data.length) :
    (z.grow n).out.pos + n ≤ (z.grow n).out.size := by
  rw [grow_out_size, grow_data_length, grow_out_pos]
  omega

/-- The first entry of `states` is the compressor the loop of `push` was
entered with (up to the codec's answer list). -/
theorem pushLoop_states_head (Z : Zstd) (B : Nat) (cs : List CodecCall) (z : ZStdCompressor)
    (inBuf : InBuffer) :
    ∃ s0 rest, (pushLoop Z B cs z inBuf).states = s0 :: rest ∧ s0.out = z.out ∧
      s0.data = z.data := by
  cases cs with
  | nil => exact ⟨_, [], rfl, rfl, rfl⟩
  | cons c cs =>
    simp only [pushLoop]
    split
    · split
      · split
        · exact ⟨z, _, rfl, rfl, rfl⟩
        · exact ⟨z, _, rfl, rfl, rfl⟩
      · exact ⟨z, _, rfl, rfl, rfl⟩
    · exact ⟨z, [], rfl, rfl, rfl⟩

/-- Inside the loop of `push`, from a state whose cursor is inside the buffer
and whose `out.size` is `data.size()`: whenever the codec answers
destination-too-small, the compressor the loop goes on with is the one the
codec left, grown by `B`. -/
theorem pushLoop_growth_steps (Z : Zstd) (B : Nat) (cs : List CodecCall) (z : ZStdCompressor)
    (inBuf : InBuffer) (hp : z.out.pos ≤ z.out.size) (hs : z.out.size = z.data.length) :
    ∀ (i : Nat) (before : ZStdCompressor) (c : CodecCall) (after : ZStdCompressor),
      (pushLoop Z B cs z inBuf).calls[i]? = some (before, c) →
      (pushLoop Z B cs z inBuf).states[i + 1]? = some after →
      Z.isError c.ret = true → Z.getErrorCode c.ret = Z.dstSize_tooSmall →
      after.data.length = (before.codecWrite c []).data.length + B ∧
      after.out.pos = (before.codecWrite c []).out.pos ∧
      after.out.size = after.data.length ∧
      after.out.pos + B ≤ after.out.size := by
  induction cs generalizing z inBuf with
  | nil =>
    intro i before c after h1
    simp [pushLoop] at h1
  | cons c0 cs ih =>
    have hp1 := codecWrite_pos_le z c0 cs hp
    have hl1 := codecWrite_data_length z c0 cs hp hs
    have hs1 : (z.codecWrite c0 cs).out.size = (z.codecWrite c0 cs).data.length := by
      rw [codecWrite_out_size, hl1]; exact hs
    intro i before c after h1 h2 he hc
    simp only [pushLoop] at h1 h2
    by_cases hcond : inBuf.pos < inBuf.size
    · by_cases he0 : Z.isError c0.ret = true
      · by_cases hc0 : Z.getErrorCode c0.ret = Z.dstSize_tooSmall
        · simp only [hcond, he0, hc0, if_true] at h1 h2
          cases i with
          | zero =>
            simp only [List.getElem?_cons_zero, Option.some.injEq, Prod.mk.injEq] at h1
            obtain ⟨hb, hcc⟩ := h1
            subst hb; subst hcc
            obtain ⟨s0, rest, hst, ho, hd⟩ := pushLoop_states_head Z B cs
              (ZStdCompressor.grow (z.codecWrite c0 cs) B) (inBuf.advance c0)
            simp only [PushResult.states, List.map_cons, List.cons_append,
              List.getElem?_cons_succ] at h2
            simp only [PushResult.states] at hst
            rw [hst] at h2
            simp only [List.getElem?_cons_zero, Option.some.injEq] at h2
            subst h2
            rw [ho, hd]
            exact ⟨grow_data_length _ _, rfl, rfl, grow_anchor _ _ hp1 hs1⟩
          | succ j =>
            simp only [List.getElem?_cons_succ] at h1
            simp only [PushResult.states, List.map_cons, List.cons_append,
              List.getElem?_cons_succ] at h2
            refine ih (ZStdCompressor.grow (z.codecWrite c0 cs) B) (inBuf.advance c0) ?_ rfl
              j before c after h1 h2 he hc
            have := grow_anchor (z.codecWrite c0 cs) B hp1 hs1
            omega
        · simp only [hcond, he0, hc0, if_true, if_false] at h1 h2
          cases i with
          | zero =>
            simp only [List.getElem?_cons_zero, Option.some.injEq, Prod.mk.injEq] at h1
            obtain ⟨_, hcc⟩ := h1
            subst hcc
            exact absurd hc hc0
          | succ j => simp at h1
      · have he1 : Z.isError c0.ret = false := by simpa using he0
        simp only [hcond, he1, Bool.false_eq_true, if_true, if_false] at h1 h2
        cases i with
        | zero =>
          simp only [List.getElem?_cons_zero, Option.some.injEq, Prod.mk.injEq] at h1
          obtain ⟨_, hcc⟩ := h1
          subst hcc
          rw [he1] at he
          exact absurd he (by simp)
        | succ j =>
          simp only [List.getElem?_cons_succ] at h1
          simp only [PushResult.states, List.map_cons, List.cons_append,
            List.getElem?_cons_succ] at h2
          exact ih (z.codecWrite c0 cs) (inBuf.advance c0) hp1 hs1 j before c after h1 h2 he hc
    · simp [hcond] at h1

/-- The loop of `push` keeps the cursor inside the buffer and `out.size`
equal to `data.size()`. -/
theorem pushLoop_anchor (Z : Zstd) (B : Nat) (cs : List CodecCall) (z : ZStdCompressor)
    (inBuf : InBuffer) (hp : z.out.pos ≤ z.out.size) (hs : z.out.size = z.data.length) :
    (pushLoop Z B cs z inBuf).z.out.pos ≤ (pushLoop Z B cs z inBuf).z.out.size ∧
    (pushLoop Z B cs z inBuf).z.out.size = (pushLoop Z B cs z inBuf).z.data.length := by
  induction cs generalizing z inBuf with
  | nil => exact ⟨hp, hs⟩
  | cons c cs ih =>
    have hp1 := codecWrite_pos_le z c cs hp
    have hl1 := codecWrite_data_length z c cs hp hs
    have hs1 : (z.codecWrite c cs).out.size = (z.codecWrite c cs).data.length := by
      rw [codecWrite_out_size, hl1]; exact hs
    simp only [pushLoop]
    split
    · split
      · split
        · refine ih (ZStdCompressor.grow (z.codecWrite c cs) B) _ ?_ rfl
          have := grow_anchor (z.codecWrite c cs) B hp1 hs1
          omega
        · unfold ZStdCompressor.recordError
          split
          · exact ⟨hp1, hs1⟩
          · exact ⟨hp1, hs1⟩
      · exact ih _ _ hp1 hs1
    · exact ⟨hp, hs⟩

theorem pushPrologue_anchor (Z : Zstd) (z : ZStdCompressor) (len : Nat)
    (hp : z.out.pos ≤ z.out.size) (hs : z.out.size = z.data.length) :
    (z.pushPrologue Z len).out.pos + maxBound Z len ≤ (z.pushPrologue Z len).out.size ∧
    (z.pushPrologue Z len).out.size = (z.pushPrologue Z len).data.length := by
  unfold ZStdCompressor.pushPrologue
  split
  · exact ⟨grow_anchor z _ hp hs, rfl⟩
  · exact ⟨by omega, hs⟩

/-- The method `push` keeps the cursor inside the buffer and `out.size` equal
to `data.size()`. -/
theorem push_anchor (Z : Zstd) (z : ZStdCompressor) (raw : List Nat)
    (hp : z.out.pos ≤ z.out.size) (hs : z.out.size = z.data.length) :
    (z.push Z raw).z.out.pos ≤ (z.push Z raw).z.out.size ∧
    (z.push Z raw).z.out.size = (z.push Z raw).z.data.length := by
  obtain ⟨h1, h2⟩ := pushPrologue_anchor Z z raw.length hp hs
  simp only [ZStdCompressor.push]
  exact pushLoop_anchor Z _ _ _ _ (le_trans (Nat.le_add_right _ _) h1) h2

/-- The loop of `end` keeps the cursor inside the buffer and `out.size` equal
to `data.size()`. -/
theorem endLoop_anchor (Z : Zstd) (cs : List CodecCall) (z : ZStdCompressor)
    (hp : z.out.pos ≤ z.out.size) (hs : z.out.size = z.data.length) :
    (endLoop Z cs z).z.out.pos ≤ (endLoop Z cs z).z.out.size ∧
    (endLoop Z cs z).z.out.size = (endLoop Z cs z).z.data.length := by
  induction cs generalizing z with
  | nil => exact ⟨hp, hs⟩
  | cons c cs ih =>
    have hp1 := codecWrite_pos_le z c cs hp
    have hl1 := codecWrite_data_length z c cs hp hs
    have hs1 : (z.codecWrite c cs).out.size = (z.codecWrite c cs).data.length := by
      rw [codecWrite_out_size, hl1]; exact hs
    simp only [endLoop]
    split
    · exact ⟨hp1, hs1⟩
    · split
      · split
        · refine ih (ZStdCompressor.grow (z.codecWrite c cs) Z.cStreamOutSize) ?_ rfl
          have := grow_anchor (z.codecWrite c cs) Z.cStreamOutSize hp1 hs1
          omega
        · unfold ZStdCompressor.recordError
          split
          · exact ⟨hp1, hs1⟩
          · exact ⟨hp1, hs1⟩
      · exact ih _ hp1 hs1

/-- The method `end` keeps the cursor inside the buffer and `out.size` equal
to `data.size()`. -/
theorem end_anchor (Z : Zstd) (z : ZStdCompressor)
    (hp : z.out.pos ≤ z.out.size) (hs : z.out.size = z.data.length) :
    (z.end_ Z).z.out.pos ≤ (z.end_ Z).z.out.size ∧
    (z.end_ Z).z.out.size = (z.end_ Z).z.data.length :=
  endLoop_anchor Z _ z hp hs

theorem pushPrologue_cstream (Z : Zstd) (z : ZStdCompressor) (len : Nat) :
    (z.pushPrologue Z len).cstream = z.cstream := by
  unfold ZStdCompressor.pushPrologue; split <;> rfl

theorem recordError_cstream (z : ZStdCompressor) (err : Nat) :
    (z.recordError err).cstream = z.cstream := by
  unfold ZStdCompressor.recordError; split <;> rfl

/-- When no remaining answer of the codec is an error, the loop of `push`
returns `last_error`, and the answers left over are again free of errors. -/
theorem pushLoop_ret_of_no_error (Z : Zstd) (B : Nat) (cs : List CodecCall) (z : ZStdCompressor)
    (inBuf : InBuffer) (hok : ∀ c ∈ cs, Z.isError c.ret = false) :
    (pushLoop Z B cs z inBuf).ret = z.last_error ∧
    (pushLoop Z B cs z inBuf).z.last_error = z.last_error ∧
    ((pushLoop Z B cs z inBuf).z.cstream = z.cstream ∨
      ∀ c ∈ (pushLoop Z B cs z inBuf).z.cstream, Z.isError c.ret = false) := by
  induction cs generalizing z inBuf with
  | nil => exact ⟨rfl, rfl, Or.inr (by intro c hc; simp [pushLoop] at hc)⟩
  | cons c cs ih =>
    have hc : Z.isError c.ret = false := hok c (List.mem_cons_self _ _)
    have hrest : ∀ c2 ∈ cs, Z.isError c2.ret = false :=
      fun c2 h2 => hok c2 (List.mem_cons_of_mem _ h2)
    simp only [pushLoop, hc, Bool.false_eq_true, if_false]
    split
    · obtain ⟨g1, g2, g3⟩ := ih (z.codecWrite c cs) (inBuf.advance c) hrest
      refine ⟨g1, g2, Or.inr ?_⟩
      rcases g3 with g3 | g3
      · rw [g3]; exact hrest
      · exact g3
    · exact ⟨rfl, rfl, Or.inl rfl⟩

/-- When no remaining answer of the codec is an error, `push` returns
`last_error` and leaves it as it was. -/
theorem push_ret_of_no_error (Z : Zstd) (z : ZStdCompressor) (raw : List Nat)
    (hok : ∀ c ∈ z.cstream, Z.isError c.ret = false) :
    (z.push Z raw).ret = z.last_error ∧
    (z.push Z raw).z.last_error = z.last_error ∧
    (∀ c ∈ (z.push Z raw).z.cstream, Z.isError c.ret = false) := by
  have hok2 : ∀ c ∈ (z.pushPrologue Z raw.length).cstream, Z.isError c.ret = false := by
    rw [pushPrologue_cstream]; exact hok
  obtain ⟨g1, g2, g3⟩ := pushLoop_ret_of_no_error Z (maxBound Z raw.length)
    (z.pushPrologue Z raw.length).cstream
    { z.pushPrologue Z raw.length with pushed := (z.pushPrologue Z raw.length).pushed ++ [raw] }
    { size := raw.length, pos := 0 } hok2
  simp only [ZStdCompressor.push]
  refine ⟨by rw [g1]; exact pushPrologue_last_error Z z _,
    by rw [g2]; exact pushPrologue_last_error Z z _, ?_⟩
  rcases g3 with g3 | g3
  · rw [g3]; exact hok2
  · exact g3

/-- When no remaining answer of the codec is an error, `end` returns
`last_error`. -/
theorem endLoop_ret_of_no_error (Z : Zstd) (cs : List CodecCall) (z : ZStdCompressor)
    (hok : ∀ c ∈ cs, Z.isError c.ret = false) :
    (endLoop Z cs z).ret = z.last_error := by
  induction cs generalizing z with
  | nil => rfl
  | cons c cs ih =>
    have hc : Z.isError c.ret = false := hok c (List.mem_cons_self _ _)
    have hrest : ∀ c2 ∈ cs, Z.isError c2.ret = false :=
      fun c2 h2 => hok c2 (List.mem_cons_of_mem _ h2)
    simp only [endLoop, hc, Bool.false_eq_true, if_false]
    split
    · rfl
    · exact ih (z.codecWrite c cs) hrest

/-- A `push` of at least one byte whose first codec call answers with a
non-retryable error returns that error; `last_error` takes it only if it was
already non-zero. -/
theorem push_ret_of_head_error (Z : Zstd) (z : ZStdCompressor) (raw : List Nat) (c : CodecCall)
    (cs : List CodecCall) (hz : z.cstream = c :: cs) (hraw : 0 < raw.length)
    (herr : Z.isError c.ret = true) (hcode : Z.getErrorCode c.ret ≠ Z.dstSize_tooSmall) :
    (z.push Z raw).ret = c.ret ∧ (z.push Z raw).z.cstream = cs ∧
    (z.push Z raw).z.last_error = if z.last_error ≠ 0 then c.ret else z.last_error := by
  simp only [ZStdCompressor.push, pushPrologue_cstream, hz, pushLoop, hraw, herr, hcode,
    if_true, if_false]
  refine ⟨trivial, ?_, ?_⟩
  · rw [recordError_cstream]; rfl
  · unfold ZStdCompressor.recordError
    simp only [ZStdCompressor.codecWrite, pushPrologue_last_error]
    split <;> rfl

/-- Claim C2 (the code departs from it).  Take a compressor just built by the
constructor and a `push` of at least one byte whose first codec call answers
with a non-retryable error `e` (an error other than destination-too-small),
all later codec answers being successes.  That `push` returns `e`; yet the
next `push`, and the `end` after it, return `0` instead of `e`: `last_error`
is assigned only under `last_error != 0`, so it never leaves `0`. -/
theorem C2_first_error_is_not_kept (Z : Zstd) (min_size : Nat) (c : CodecCall)
    (cs : List CodecCall) (raw1 raw2 : List Nat) (hraw : 0 < raw1.length)
    (herr : Z.isError c.ret = true) (hcode : Z.getErrorCode c.ret ≠ Z.dstSize_tooSmall)
    (hok : ∀ c2 ∈ cs, Z.isError c2.ret = false) :
    ((ZStdCompressor.ctor min_size (c :: cs)).push Z raw1).ret = c.ret ∧
    ((ZStdCompressor.ctor min_size (c :: cs)).push Z raw1).z.last_error = 0 ∧
    ((((ZStdCompressor.ctor min_size (c :: cs)).push Z raw1).z).push Z raw2).ret = 0 ∧
    ((((((ZStdCompressor.ctor min_size (c :: cs)).push Z raw1).z).push Z raw2).z).end_ Z).ret
      = 0 := by
  obtain ⟨h1, h2, h3⟩ := push_ret_of_head_error Z (ZStdCompressor.ctor min_size (c :: cs)) raw1 c cs
    rfl hraw herr hcode
  have h0 : ((ZStdCompressor.ctor min_size (c :: cs)).push Z raw1).z.last_error = 0 := by
    rw [h3]; simp [ZStdCompressor.ctor, ZStdCompressor.resize]
  obtain ⟨g1, g2, g3⟩ := push_ret_of_no_error Z
    ((ZStdCompressor.ctor min_size (c :: cs)).push Z raw1).z raw2 (by rw [h2]; exact hok)
  refine ⟨h1, h0, by rw [g1, h0], ?_⟩
  unfold ZStdCompressor.end_
  rw [endLoop_ret_of_no_error Z _ _ g3, g2, h0]

/-- Witness for C2: a 16-byte compressor, the real zstd error classification,
first answer `(size_t)-ZSTD_error_GENERIC`, then two successes. -/
theorem C2_first_error_is_not_kept_witness :
    zstdRef.isError (2 ^ 64 - 1) = true ∧
    zstdRef.getErrorCode (2 ^ 64 - 1) ≠ zstdRef.dstSize_tooSmall ∧
    ((ZStdCompressor.ctor 16
        [{ ret := 2 ^ 64 - 1, consumed := 0, produced := [] },
         { ret := 0, consumed := 1, produced := [40] },
         { ret := 0, consumed := 0, produced := [253] }]).push zstdRef [1, 2, 3]).ret
      = 2 ^ 64 - 1 ∧
    (((ZStdCompressor.ctor 16
        [{ ret := 2 ^ 64 - 1, consumed := 0, produced := [] },
         { ret := 0, consumed := 1, produced := [40] },
         { ret := 0, consumed := 0, produced := [253] }]).push zstdRef [1, 2, 3]).z.push
        zstdRef [4]).ret = 0 :=
  ⟨by decide, by decide,
    (C2_first_error_is_not_kept zstdRef 16 { ret := 2 ^ 64 - 1, consumed := 0, produced := [] }
      [{ ret := 0, consumed := 1, produced := [40] },
       { ret := 0, consumed := 0, produced := [253] }] [1, 2, 3] [4]
      (by decide) (by decide) (by decide) (by decide)).1,
    (C2_first_error_is_not_kept zstdRef 16 { ret := 2 ^ 64 - 1, consumed := 0, produced := [] }
      [{ ret := 0, consumed := 1, produced := [40] },
       { ret := 0, consumed := 0, produced := [253] }] [1, 2, 3] [4]
      (by decide) (by decide) (by decide) (by decide)).2.2.1⟩

/-- Claim C10.  For every compressor state whose cursor is inside the buffer
(`out.pos <= out.size`) and whose `out.size` is `data.size()` (as `resize()`
leaves it), and every `push(raw, len)`, with `B = max(ZSTD_CStreamOutSize(),
ZSTD_compressBound(len))`.  The compressor the loop is entered with, which is
the one handed to the codec at its first invocation, has
`out.pos + B <= out.size`; when the test before the loop finds
`out.pos + B > out.size` it is the given state with `data` longer by exactly
`B`, the same `out.pos`, and `out.size = data.size()`.  And at every codec
invocation inside the loop that answers destination-too-small, the compressor
the loop goes on with (handed to the next invocation, or returned) is the one
the codec left with `data` longer by exactly `B`, the same `out.pos`,
`out.size = data.size()`, and `out.pos + B <= out.size`. -/
theorem C10_push_growth_keeps_bound (Z : Zstd) (z : ZStdCompressor) (raw : List Nat)
    (hpos : z.out.pos ≤ z.out.size) (hsize : z.out.size = z.data.length) :
    (∃ s0 rest, (z.push Z raw).states = s0 :: rest ∧
      s0.out.pos + maxBound Z raw.length ≤ s0.out.size ∧
      s0.out.size = s0.data.length ∧
      (z.out.pos + maxBound Z raw.length > z.out.size →
        s0.data.length = z.data.length + maxBound Z raw.length ∧ s0.out.pos = z.out.pos) ∧
      (z.out.pos + maxBound Z raw.length ≤ z.out.size → s0.out = z.out ∧ s0.data = z.data)) ∧
    (z.push Z raw).states.length = (z.push Z raw).calls.length + 1 ∧
    (∀ (i : Nat) (before : ZStdCompressor) (c : CodecCall) (after : ZStdCompressor),
      (z.push Z raw).calls[i]? = some (before, c) →
      (z.push Z raw).states[i + 1]? = some after →
      Z.isError c.ret = true → Z.getErrorCode c.ret = Z.dstSize_tooSmall →
      after.data.length = (before.codecWrite c []).data.length + maxBound Z raw.length ∧
      after.out.pos = (before.codecWrite c []).out.pos ∧
      after.out.size = after.data.length ∧
      after.out.pos + maxBound Z raw.length ≤ after.out.size) := by
  obtain ⟨h1, h2⟩ := pushPrologue_anchor Z z raw.length hpos hsize
  refine ⟨?_, by simp [PushResult.states], ?_⟩
  · obtain ⟨s0, rest, hst, ho, hd⟩ := pushLoop_states_head Z (maxBound Z raw.length)
      (z.pushPrologue Z raw.length).cstream
      { z.pushPrologue Z raw.length with pushed := (z.pushPrologue Z raw.length).pushed ++ [raw] }
      { size := raw.length, pos := 0 }
    refine ⟨s0, rest, hst, ?_, ?_, ?_, ?_⟩
    · rw [ho]; exact h1
    · rw [ho, hd]; exact h2
    · intro hgrow
      rw [ho, hd]
      simp only [ZStdCompressor.pushPrologue, if_pos hgrow]
      exact ⟨grow_data_length _ _, rfl⟩
    · intro hfit
      have hsame : z.pushPrologue Z raw.length = z := by
        unfold ZStdCompressor.pushPrologue
        rw [if_neg (Nat.not_lt.mpr hfit)]
      rw [ho, hd, hsame]
      exact ⟨rfl, rfl⟩
  · exact pushLoop_growth_steps Z (maxBound Z raw.length) (z.pushPrologue Z raw.length).cstream
      { z.pushPrologue Z raw.length with pushed := (z.pushPrologue Z raw.length).pushed ++ [raw] }
      { size := raw.length, pos := 0 } (le_trans (Nat.le_add_right _ _) h1) h2

/-- Witness for C10: a 16-byte compressor whose codec first answers
destination-too-small and then takes the three bytes; the `push` grows before
the loop and again after the first invocation. -/
theorem C10_push_growth_keeps_bound_witness :
    ((ZStdCompressor.ctor 16
        [{ ret := 2 ^ 64 - 70, consumed := 0, produced := [] },
         { ret := 0, consumed := 3, produced := [40, 181] }]).push zstdRef
          [1, 2, 3]).calls.map (fun x => x.2.ret) = [2 ^ 64 - 70, 0] ∧
    (∀ (i : Nat) (before : ZStdCompressor) (c : CodecCall) (after : ZStdCompressor),
      ((ZStdCompressor.ctor 16
        [{ ret := 2 ^ 64 - 70, consumed := 0, produced := [] },
         { ret := 0, consumed := 3, produced := [40, 181] }]).push zstdRef
          [1, 2, 3]).calls[i]? = some (before, c) →
      ((ZStdCompressor.ctor 16
        [{ ret := 2 ^ 64 - 70, consumed := 0, produced := [] },
         { ret := 0, consumed := 3, produced := [40, 181] }]).push zstdRef
          [1, 2, 3]).states[i + 1]? = some after →
      zstdRef.isError c.ret = true → zstdRef.getErrorCode c.ret = zstdRef.dstSize_tooSmall →
      after.data.length = (before.codecWrite c []).data.length + maxBound zstdRef 3 ∧
      after.out.pos = (before.codecWrite c []).out.pos ∧
      after.out.size = after.data.length ∧
      after.out.pos + maxBound zstdRef 3 ≤ after.out.size) :=
  ⟨by decide,
    (C10_push_growth_keeps_bound zstdRef
      (ZStdCompressor.ctor 16
        [{ ret := 2 ^ 64 - 70, consumed := 0, produced := [] },
         { ret := 0, consumed := 3, produced := [40, 181] }]) [1, 2, 3]
      (ctor_anchor _ _).1 (ctor_anchor _ _).2.1).2.2⟩

/-! ## Theorems: the event buffer -/

/-- What `write_event_buffer()` does to the fields of the session. -/
theorem write_event_buffer_fields (Z : Zstd) (p : Profile) (now : Int) :
    (p.write_event_buffer Z now).samples.pushed
        = p.samples.pushed ++ [wordsToBytes (p.event_buffer ++ [PROF_EV_NULL])] ∧
    (p.write_event_buffer Z now).event_buffer = [toU32 (now - p.event_buffer_start)] ∧
    (p.write_event_buffer Z now).event_buffer_start = now ∧
    (p.write_event_buffer Z now).last_gc_start = p.last_gc_start := by
  simp only [Profile.write_event_buffer, Profile.push_event_time, push_pushed, List.nil_append]
  exact ⟨trivial, trivial, trivial, trivial⟩

theorem gc_finish_last_gc_start (p : Profile) (now : Int) :
    (p.gc_finish now).last_gc_start = p.last_gc_start := by
  unfold Profile.gc_finish; split <;> rfl

theorem gc_finish_event_buffer_start (p : Profile) (now : Int) :
    (p.gc_finish now).event_buffer_start = p.event_buffer_start := by
  unfold Profile.gc_finish; split <;> rfl

theorem applyOps_append (Z : Zstd) (p : Profile) (a b : List GcOp) :
    p.applyOps Z (a ++ b) = (p.applyOps Z a).applyOps Z b := by
  simp [Profile.applyOps, List.foldl_append]

theorem applyOps_cons (Z : Zstd) (p : Profile) (op : GcOp) (ops : List GcOp) :
    p.applyOps Z (op :: ops) = (p.applyOp Z op).applyOps Z ops := rfl

/-- Only the GC-start callback writes `last_gc_start`. -/
theorem applyOps_last_gc_start_of_no_start (Z : Zstd) (ops : List GcOp) (p : Profile)
    (h : ∀ op ∈ ops, op.isStart = false) :
    (p.applyOps Z ops).last_gc_start = p.last_gc_start := by
  induction ops generalizing p with
  | nil => rfl
  | cons op rest ih =>
    rw [applyOps_cons, ih _ (fun o ho => h o (List.mem_cons_of_mem _ ho))]
    have hop := h op (List.mem_cons_self _ _)
    cases op with
    | gcStart t => simp [GcOp.isStart] at hop
    | gcFinish t => exact gc_finish_last_gc_start p t
    | flush t => exact (write_event_buffer_fields Z p t).2.2.2

/-- Only the flush writes `event_buffer_start`. -/
theorem applyOps_epoch_of_no_flush (Z : Zstd) (ops : List GcOp) (p : Profile)
    (h : ∀ op ∈ ops, op.isFlush = false) :
    (p.applyOps Z ops).event_buffer_start = p.event_buffer_start := by
  induction ops generalizing p with
  | nil => rfl
  | cons op rest ih =>
    rw [applyOps_cons, ih _ (fun o ho => h o (List.mem_cons_of_mem _ ho))]
    have hop := h op (List.mem_cons_self _ _)
    cases op with
    | gcStart t => rfl
    | gcFinish t => exact gc_finish_event_buffer_start p t
    | flush t => simp [GcOp.isFlush] at hop

/-- The rolling epoch is the initial one or the clock reading of one of the
calls. -/
theorem applyOps_epoch_mem (Z : Zstd) (ops : List GcOp) (p : Profile) :
    (p.applyOps Z ops).event_buffer_start ∈ p.event_buffer_start :: ops.map GcOp.time := by
  induction ops generalizing p with
  | nil => simp [Profile.applyOps]
  | cons op rest ih =>
    rw [applyOps_cons]
    have h := ih (p.applyOp Z op)
    simp only [List.map_cons, List.mem_cons] at h ⊢
    rcases h with h | h
    · cases op with
      | gcStart t => left; rw [h]; rfl
      | gcFinish t => left; rw [h]; exact gc_finish_event_buffer_start p t
      | flush t =>
        right; left; rw [h]
        exact (write_event_buffer_fields Z p t).2.2.1
    · right; right; exact h

/-- A sequence with a GC-start callback splits at its latest one. -/
theorem exists_latest_start (ops : List GcOp) (h : ∃ op ∈ ops, op.isStart = true) :
    ∃ a t0 b, ops = a ++ GcOp.gcStart t0 :: b ∧ ∀ op ∈ b, op.isStart = false := by
  induction ops with
  | nil => obtain ⟨op, hop, _⟩ := h; simp at hop
  | cons o rest ih =>
    by_cases hr : ∃ op ∈ rest, op.isStart = true
    · obtain ⟨a, t0, b, hab, hb⟩ := ih hr
      exact ⟨o :: a, t0, b, by rw [hab]; rfl, hb⟩
    · have hnone : ∀ op ∈ rest, op.isStart = false := by
        intro op hop
        cases hs : op.isStart with
        | false => rfl
        | true => exact absurd ⟨op, hop, hs⟩ hr
      obtain ⟨op, hop, hs⟩ := h
      simp only [List.mem_cons] at hop
      rcases hop with hop | hop
      · subst hop
        cases op with
        | gcStart t => exact ⟨[], t, rest, rfl, hnone⟩
        | gcFinish t => simp [GcOp.isStart] at hs
        | flush t => simp [GcOp.isStart] at hs
      · rw [hnone op hop] at hs; simp at hs

/-- Claim C6, as the code has it.  One call of `write_event_buffer()` hands to
the sample stream, as a single `push`, exactly the bytes of the event buffer's
prior words followed by one zero boundary word; afterwards the rolling epoch
`event_buffer_start` is the flush time, and the event buffer holds exactly one
word, the time offset of the flush from the previous epoch (nanoseconds,
truncated to 32 bits) - it is not empty. -/
theorem C6_flush_pushes_buffer_and_restarts (Z : Zstd) (p : Profile) (now : Int) :
    (p.write_event_buffer Z now).samples.pushed
        = p.samples.pushed ++ [wordsToBytes (p.event_buffer ++ [PROF_EV_NULL])] ∧
    (p.write_event_buffer Z now).event_buffer = [toU32 (now - p.event_buffer_start)] ∧
    (p.write_event_buffer Z now).event_buffer_start = now := by
  obtain ⟨h1, h2, h3, _⟩ := write_event_buffer_fields Z p now
  exact ⟨h1, h2, h3⟩

/-- Counterexample to C6 as stated: a session started at time 100 and flushed
at time 150 is left with the event buffer `[50]`, not with an empty one. -/
theorem C6_event_buffer_not_cleared :
    (((Profile.ctor 1 [1] 1024 1000 100 [] []).runBegin 100).write_event_buffer
        zstdRef 150).event_buffer = [50] ∧
    (((Profile.ctor 1 [1] 1024 1000 100 [] []).runBegin 100).write_event_buffer
        zstdRef 150).event_buffer ≠ [] := by
  decide

/-- The rolling epoch is the initial one or the clock reading of one of the
flushes. -/
theorem applyOps_epoch_of_flushes (Z : Zstd) (ops : List GcOp) (p : Profile) :
    (p.applyOps Z ops).event_buffer_start = p.event_buffer_start ∨
    ∃ op ∈ ops, op.isFlush = true ∧ op.time = (p.applyOps Z ops).event_buffer_start := by
  induction ops generalizing p with
  | nil => left; rfl
  | cons op rest ih =>
    rw [applyOps_cons]
    rcases ih (p.applyOp Z op) with h | ⟨o, ho, hf, ht⟩
    · cases op with
      | gcStart t => left; rw [h]; rfl
      | gcFinish t => left; rw [h]; exact gc_finish_event_buffer_start p t
      | flush t =>
        right
        refine ⟨GcOp.flush t, List.mem_cons_self _ _, rfl, ?_⟩
        rw [h]
        exact ((write_event_buffer_fields Z p t).2.2.1).symm
    · right
      exact ⟨o, List.mem_cons_of_mem _ ho, hf, ht⟩

/-- Claim C5, as the code has it.  The calls gc_start, gc_finish and flush are
taken in the order in which they take effect, each with the clock reading it
made; readings are later than the Unix epoch.  On a session that has seen no
GC start (`last_gc_start` is `absl::Time()`), after any such calls `pre`, a
`gc_finish` with reading `now`: leaves the event buffer unchanged when `pre`
holds no gc_start at all; and otherwise appends the GC event (tag 1, start
delta, end delta), both deltas relative to the current epoch and the start
delta measured from the latest gc_start `t0` of `pre` - whether or not a
flush or another gc_finish came after that gc_start.  The start delta is
non-negative when no flush came after the latest gc_start and the reading of
that gc_start is not older than the initial epoch and the readings of the
flushes before it (as it is when readings do not decrease along the calls).
Nothing is said of the sign of the end delta. -/
theorem C5_gc_finish_needs_a_start_in_session (Z : Zstd) (p0 : Profile) (pre : List GcOp)
    (now : Int) (h0 : p0.last_gc_start = 0) (hpos : ∀ op ∈ pre, 0 < op.time) :
    ((∀ op ∈ pre, op.isStart = false) →
      ((p0.applyOps Z pre).gc_finish now).event_buffer = (p0.applyOps Z pre).event_buffer) ∧
    ((∃ op ∈ pre, op.isStart = true) →
      ∃ a t0 b, pre = a ++ GcOp.gcStart t0 :: b ∧ (∀ op ∈ b, op.isStart = false) ∧
        ((p0.applyOps Z pre).gc_finish now).event_buffer
          = (p0.applyOps Z pre).event_buffer ++
            [PROF_EV_GC, toU32 (t0 - (p0.applyOps Z pre).event_buffer_start),
              toU32 (now - (p0.applyOps Z pre).event_buffer_start)] ∧
        ((∀ op ∈ b, op.isFlush = false) →
          p0.event_buffer_start ≤ t0 →
          (∀ op ∈ a, op.isFlush = true → op.time ≤ t0) →
          0 ≤ t0 - (p0.applyOps Z pre).event_buffer_start)) := by
  constructor
  · intro hnone
    have hl : (p0.applyOps Z pre).last_gc_start = 0 := by
      rw [applyOps_last_gc_start_of_no_start Z pre p0 hnone]; exact h0
    unfold Profile.gc_finish
    rw [if_neg (by simp [hl])]
  · intro hsome
    obtain ⟨a, t0, b, hab, hb⟩ := exists_latest_start pre hsome
    refine ⟨a, t0, b, hab, hb, ?_, ?_⟩
    · have hl : (p0.applyOps Z pre).last_gc_start = t0 := by
        rw [hab, applyOps_append, applyOps_cons, applyOps_last_gc_start_of_no_start Z b _ hb]
        rfl
      have ht0 : 0 < t0 := by
        have := hpos (GcOp.gcStart t0) (by rw [hab]; simp)
        simpa [GcOp.time] using this
      unfold Profile.gc_finish
      rw [if_pos (by rw [hl]; omega)]
      simp [Profile.push_event_time, hl]
    · intro hnf hinit hflush
      have he : (p0.applyOps Z pre).event_buffer_start = (p0.applyOps Z a).event_buffer_start := by
        rw [hab, applyOps_append, applyOps_cons, applyOps_epoch_of_no_flush Z b _ hnf]
        rfl
      rw [he]
      rcases applyOps_epoch_of_flushes Z a p0 with h | ⟨o, ho, hf, ht⟩
      · rw [h]; omega
      · have := hflush o ho hf
        rw [← ht]; omega

/-- Witness for C5: flush at 105, gc_start at 110, then gc_finish at 130 on a
session started at 100. -/
theorem C5_gc_finish_needs_a_start_in_session_witness :
    ∃ a t0 b, [GcOp.flush 105, GcOp.gcStart 110] = a ++ GcOp.gcStart t0 :: b ∧
      (∀ op ∈ b, op.isStart = false) ∧
      ((((Profile.ctor 1 [1] 1024 1000 100 [] []).runBegin 100).applyOps zstdRef
          [GcOp.flush 105, GcOp.gcStart 110]).gc_finish 130).event_buffer
        = (((Profile.ctor 1 [1] 1024 1000 100 [] []).runBegin 100).applyOps zstdRef
            [GcOp.flush 105, GcOp.gcStart 110]).event_buffer ++
          [PROF_EV_GC,
            toU32 (t0 - (((Profile.ctor 1 [1] 1024 1000 100 [] []).runBegin 100).applyOps
              zstdRef [GcOp.flush 105, GcOp.gcStart 110]).event_buffer_start),
            toU32 (130 - (((Profile.ctor 1 [1] 1024 1000 100 [] []).runBegin 100).applyOps
              zstdRef [GcOp.flush 105, GcOp.gcStart 110]).event_buffer_start)] ∧
      ((∀ op ∈ b, op.isFlush = false) →
        ((Profile.ctor 1 [1] 1024 1000 100 [] []).runBegin 100).event_buffer_start ≤ t0 →
        (∀ op ∈ a, op.isFlush = true → op.time ≤ t0) →
        0 ≤ t0 - (((Profile.ctor 1 [1] 1024 1000 100 [] []).runBegin 100).applyOps zstdRef
          [GcOp.flush 105, GcOp.gcStart 110]).event_buffer_start) :=
  (C5_gc_finish_needs_a_start_in_session zstdRef
    ((Profile.ctor 1 [1] 1024 1000 100 [] []).runBegin 100)
    [GcOp.flush 105, GcOp.gcStart 110] 130 (by decide) (by decide)).2
    ⟨GcOp.gcStart 110, by decide, by decide⟩

/-- A `gc_finish` whose clock reading was taken before a flush moved the epoch
(reading 125, flush at 130) records an end delta before the epoch, stored as
`2^32 - 5`. -/
theorem gc_finish_reading_older_than_flush :
    ((((Profile.ctor 1 [1] 1024 1000 100 [] []).runBegin 100).applyOps zstdRef
        [GcOp.gcStart 110, GcOp.flush 130]).gc_finish 125).event_buffer
      = [30, 1, 4294967276, 4294967291] := by
  decide

/-- Counterexample to C5 as stated: gc_start at 110, flush at 120, gc_finish
at 130.  No gc_start lies in the window opened by the flush, yet the gc_finish
appends a GC event, whose start delta `110 - 120` is negative and is stored as
`2^32 - 10`. -/
theorem C5_gc_finish_after_flush_appends :
    (((Profile.ctor 1 [1] 1024 1000 100 [] []).runBegin 100).applyOps zstdRef
        [GcOp.gcStart 110, GcOp.flush 120]).event_buffer = [20] ∧
    ((((Profile.ctor 1 [1] 1024 1000 100 [] []).runBegin 100).applyOps zstdRef
        [GcOp.gcStart 110, GcOp.flush 120]).gc_finish 130).event_buffer
      = [20, 1, 4294967286, 10] ∧
    (110 : Int) - (((Profile.ctor 1 [1] 1024 1000 100 [] []).runBegin 100).applyOps zstdRef
        [GcOp.gcStart 110, GcOp.flush 120]).event_buffer_start < 0 := by
  decide

/-! ## Theorems: the sampling tick -/

/-- The ids the frame loop writes are the ids the registry holds afterwards
for the handles, in order. -/
theorem resolveAll_ids (hs : List Nat) (r : Registry) :
    (resolveAll r hs).2.map some = hs.map (resolveAll r hs).1.idOf := by
  induction hs generalizing r with
  | nil => rfl
  | cons k rest ih =>
    simp only [resolveAll, List.map_cons]
    rw [ih (resolve r k).1, resolveAll_idOf_stable rest (resolve r k).1 k _ (resolve_idOf_self r k)]

theorem toU32_of_small (n : Nat) (h : n < 2 ^ 32) : toU32 (n : Int) = n := by
  unfold toU32
  have h2 : ((n : Int) % 2 ^ 32) = (n : Int) := by
    apply Int.emod_eq_of_lt
    · exact Int.ofNat_nonneg n
    · exact_mod_cast h
  rw [h2]; simp

/-- A thread without frames leaves the session and the scratch words alone. -/
theorem sampleThread_no_frames (Z : Zstd) (p : Profile) (buf : List Nat) (info : jvmtiStackInfo)
    (h : info.frame_count ≤ 0) : sampleThread Z p buf info = (none, p, buf) := by
  unfold sampleThread
  rw [if_pos h]

/-- The loop over threads that all have no frame does nothing. -/
theorem sampleThreads_no_frames (Z : Zstd) (infos : List jvmtiStackInfo) (p : Profile)
    (buf : List Nat) (h : ∀ info ∈ infos, info.frame_count ≤ 0) :
    sampleThreads Z infos p buf = (none, p) := by
  induction infos with
  | nil => rfl
  | cons info rest ih =>
    simp only [sampleThreads]
    rw [sampleThread_no_frames Z p buf info (h info (List.mem_cons_self _ _))]
    exact ih (fun i hi => h i (List.mem_cons_of_mem _ hi))

/-- What one iteration of the thread loop pushes for a thread with frames,
when the buffer-full test lets it through. -/
theorem sampleThread_pushed (Z : Zstd) (p : Profile) (buf : List Nat) (info : jvmtiStackInfo)
    (hn : 0 < info.frame_count)
    (hroom : ¬ p.samples.out.pos
      ≥ (p.samples.out.size + 2 ^ 64 - p.sample_buffer_size) % 2 ^ 64) :
    (sampleThread Z p buf info).2.1.samples.pushed = p.samples.pushed ++
      [wordsToBytes (buf ++ threadWords info (resolveAll p.registry
        ((info.frame_buffer.take info.frame_count.toNat).map (fun f => f.method))).2)] ∧
    (sampleThread Z p buf info).2.1.registry = (resolveAll p.registry
        ((info.frame_buffer.take info.frame_count.toNat).map (fun f => f.method))).1 := by
  unfold sampleThread
  rw [if_neg (by omega), if_neg hroom]
  simp only
  split
  · exact ⟨push_pushed Z _ _, rfl⟩
  · exact ⟨push_pushed Z _ _, rfl⟩

/-- Claim C3, as the code has it.  A thread with frame count `<= 0` contributes
no words: the session and the scratch words are unchanged.  For a captured
thread with `n >= 1` frames (`n` the length of its frame buffer, at most the
cap `0xFFFF` of the capture), `sample()` either returns `PROF_ERR_BUFFER_FULL`
with the session unchanged, or pushes the scratch words followed by this
record: the execution-state word, `n`, the registry ids of `frame_buffer[0]`,
..., `frame_buffer[n-1]` in that order, and finally the location of
`frame_buffer[n-1]` - the last captured frame, not `frame_buffer[0]` -
truncated to 32 bits. -/
theorem C3_thread_record_layout (Z : Zstd) (p : Profile) (buf : List Nat)
    (info : jvmtiStackInfo) :
    (info.frame_count ≤ 0 → sampleThread Z p buf info = (none, p, buf)) ∧
    (0 < info.frame_count → info.frame_count = info.frame_buffer.length →
      info.frame_buffer.length ≤ 0xFFFF →
      ((sampleThread Z p buf info).1 = some PROF_ERR_BUFFER_FULL ∧
        (sampleThread Z p buf info).2.1 = p) ∨
      ∃ ids : List Nat,
        ids.map some
          = info.frame_buffer.map (fun f => (sampleThread Z p buf info).2.1.registry.idOf f.method) ∧
        (sampleThread Z p buf info).2.1.samples.pushed = p.samples.pushed ++
          [wordsToBytes (buf ++ [toU32 info.state, info.frame_buffer.length] ++ ids ++
            [toU32 (locationAt info.frame_buffer (info.frame_buffer.length - 1))])]) := by
  refine ⟨sampleThread_no_frames Z p buf info, ?_⟩
  intro hn hlen hmax
  by_cases hroom : p.samples.out.pos
      ≥ (p.samples.out.size + 2 ^ 64 - p.sample_buffer_size) % 2 ^ 64
  · left
    unfold sampleThread
    rw [if_neg (by omega), if_pos hroom]
    exact ⟨rfl, rfl⟩
  · right
    obtain ⟨h1, h2⟩ := sampleThread_pushed Z p buf info hn hroom
    have htake : info.frame_buffer.take info.frame_count.toNat = info.frame_buffer := by
      rw [hlen]; simp
    rw [htake] at h1 h2
    refine ⟨(resolveAll p.registry (info.frame_buffer.map (fun f => f.method))).2, ?_, ?_⟩
    · rw [resolveAll_ids, h2, List.map_map]; rfl
    · rw [h1]
      simp only [threadWords]
      rw [hlen, toU32_of_small _ (by omega)]
      simp

/-- Witness for C3: a thread in state 2 with the frames (method 11, location
5) and (method 12, location 9), first thread of a tick on a fresh session. -/
theorem C3_thread_record_layout_witness :
    (0 : Int) < 2 ∧
    (∃ ids : List Nat,
      ids.map some = [some 1, some 2] ∧
      (sampleThread zstdRef (Profile.ctor 1 [1] 64 1000 100 [] []) []
          { thread := 1, state := 2, frame_count := 2,
            frame_buffer := [{ method := 11, location := 5 }, { method := 12, location := 9 }] }
        ).2.1.samples.pushed
        = [wordsToBytes ([2, 2] ++ ids ++ [9])]) := by
  refine ⟨by decide, ?_⟩
  have h := (C3_thread_record_layout zstdRef (Profile.ctor 1 [1] 64 1000 100 [] []) []
    { thread := 1, state := 2, frame_count := 2,
      frame_buffer := [{ method := 11, location := 5 }, { method := 12, location := 9 }] }).2
    (by decide) (by decide) (by decide)
  rcases h with h | h
  · exact absurd h.1 (by decide)
  · obtain ⟨ids, h1, h2⟩ := h
    refine ⟨ids, ?_, ?_⟩
    · rw [h1]; decide
    · rw [h2]; rfl

/-- Counterexample to C3 as stated: for a thread with the frames (method 11,
location 5) and (method 12, location 9) the record ends with `9`, the location
of `frame_buffer[1]`, and not with `5`, the location of `frame_buffer[0]`. -/
theorem C3_location_is_of_last_frame :
    (sampleThread zstdRef (Profile.ctor 1 [1] 64 1000 100 [] []) []
        { thread := 1, state := 2, frame_count := 2,
          frame_buffer := [{ method := 11, location := 5 }, { method := 12, location := 9 }] }
      ).2.1.samples.pushed = [wordsToBytes [2, 2, 1, 2, 9]] ∧
    wordsToBytes [2, 2, 1, 2, 9] ≠ wordsToBytes [2, 2, 1, 2, toU32 5] := by
  decide

/-- A tick on which no thread has a frame: `sample()` returns `0` and is
`write_event_buffer()` alone. -/
theorem sample_no_frames (Z : Zstd) (p : Profile) (traces : Nat × List jvmtiStackInfo)
    (heapinfo : List Int) (duration : Int) (freeErr : Nat) (now : Int)
    (h1 : traces.1 = 0) (h2 : ∀ info ∈ traces.2, info.frame_count ≤ 0) (h3 : freeErr = 0) :
    p.sample Z traces heapinfo duration freeErr now = (0, p.write_event_buffer Z now) := by
  unfold Profile.sample
  rw [if_neg (by simp [h1]),
    sampleThreads_no_frames Z _ p _ (fun i hi => h2 i (List.mem_of_mem_take hi))]
  simp [h3]

/-- The code of an early `return` of the thread loop is never `0`. -/
theorem sampleThreads_code_ne_zero (Z : Zstd) (infos : List jvmtiStackInfo) (p : Profile)
    (buf : List Nat) (h : (sampleThreads Z infos p buf).1 = some 0) : False := by
  induction infos generalizing p buf with
  | nil => simp [sampleThreads] at h
  | cons info rest ih =>
    simp only [sampleThreads] at h
    rcases hst : sampleThread Z p buf info with ⟨code, p1, buf1⟩
    rw [hst] at h
    cases code with
    | some c =>
      simp only [Option.some.injEq] at h
      subst h
      unfold sampleThread at hst
      split at hst
      · simp at hst
      · split at hst
        · simp [PROF_ERR_BUFFER_FULL, PROF_ERROR] at hst
        · simp only at hst
          split at hst
          · simp [PROF_ERR_COMPRESS, PROF_ERROR] at hst
          · simp at hst
    | none => exact ih p1 buf1 h

/-- One iteration of the thread loop only appends to the pushed ranges. -/
theorem sampleThread_pushed_extends (Z : Zstd) (p : Profile) (buf : List Nat)
    (info : jvmtiStackInfo) :
    ∃ more, (sampleThread Z p buf info).2.1.samples.pushed = p.samples.pushed ++ more := by
  unfold sampleThread
  split
  · exact ⟨[], by simp⟩
  · split
    · exact ⟨[], by simp⟩
    · simp only
      split
      · exact ⟨_, push_pushed Z _ _⟩
      · exact ⟨_, push_pushed Z _ _⟩

/-- The thread loop only appends to the pushed ranges. -/
theorem sampleThreads_pushed_extends (Z : Zstd) (infos : List jvmtiStackInfo) (p : Profile)
    (buf : List Nat) :
    ∃ more, (sampleThreads Z infos p buf).2.samples.pushed = p.samples.pushed ++ more := by
  induction infos generalizing p buf with
  | nil => exact ⟨[], by simp [sampleThreads]⟩
  | cons info rest ih =>
    obtain ⟨m1, h1⟩ := sampleThread_pushed_extends Z p buf info
    simp only [sampleThreads]
    rcases hst : sampleThread Z p buf info with ⟨code, p1, buf1⟩
    rw [hst] at h1
    cases code with
    | some c => exact ⟨m1, h1⟩
    | none =>
      obtain ⟨m2, h2⟩ := ih p1 buf1
      simp only at h1
      exact ⟨m1 ++ m2, by rw [h2, h1, List.append_assoc]⟩

/-- When the thread loop runs to its end and some thread has a frame, the
first range it pushes starts with the scratch words it was entered with. -/
theorem sampleThreads_first_push (Z : Zstd) (infos : List jvmtiStackInfo) (p : Profile)
    (buf : List Nat) (hsome : ∃ info ∈ infos, 0 < info.frame_count)
    (hdone : (sampleThreads Z infos p buf).1 = none) :
    ∃ words more, (sampleThreads Z infos p buf).2.samples.pushed
      = p.samples.pushed ++ wordsToBytes (buf ++ words) :: more := by
  induction infos generalizing p buf with
  | nil => obtain ⟨i, hi, _⟩ := hsome; simp at hi
  | cons info rest ih =>
    by_cases hfc : info.frame_count ≤ 0
    · have hst := sampleThread_no_frames Z p buf info hfc
      simp only [sampleThreads, hst] at hdone ⊢
      apply ih p buf _ hdone
      obtain ⟨i, hi, hpos⟩ := hsome
      simp only [List.mem_cons] at hi
      rcases hi with hi | hi
      · subst hi; omega
      · exact ⟨i, hi, hpos⟩
    · by_cases hroom : p.samples.out.pos
          ≥ (p.samples.out.size + 2 ^ 64 - p.sample_buffer_size) % 2 ^ 64
      · have hst : sampleThread Z p buf info = (some PROF_ERR_BUFFER_FULL, p, buf) := by
          unfold sampleThread
          rw [if_neg hfc, if_pos hroom]
        simp [sampleThreads, hst] at hdone
      · obtain ⟨h1, _⟩ := sampleThread_pushed Z p buf info (by omega) hroom
        simp only [sampleThreads] at hdone ⊢
        rcases hst : sampleThread Z p buf info with ⟨code, p1, buf1⟩
        rw [hst] at h1 hdone
        cases code with
        | some c => simp at hdone
        | none =>
          obtain ⟨m2, h2⟩ := sampleThreads_pushed_extends Z rest p1 buf1
          refine ⟨threadWords info (resolveAll p.registry
            ((info.frame_buffer.take info.frame_count.toNat).map (fun f => f.method))).2, m2, ?_⟩
          simp only at h1 ⊢
          rw [h2, h1, List.append_assoc]
          rfl

/-- A tick that returns `0` and on which some captured thread has a frame: the
first range pushed starts with the elapsed-time word and the heap-info words,
and the last range pushed is the event-buffer chunk. -/
theorem sample_with_frames_begins_with_header (Z : Zstd) (p : Profile)
    (traces : Nat × List jvmtiStackInfo) (heapinfo : List Int) (duration : Int) (freeErr : Nat)
    (now : Int) (hsome : ∃ info ∈ traces.2.take p.thread_count, 0 < info.frame_count)
    (hret : (p.sample Z traces heapinfo duration freeErr now).1 = 0) :
    ∃ words more events, (p.sample Z traces heapinfo duration freeErr now).2.samples.pushed
      = p.samples.pushed ++
        wordsToBytes (tickHeader duration heapinfo ++ words) :: more ++ [wordsToBytes events] := by
  unfold Profile.sample at hret ⊢
  by_cases h1 : traces.1 ≠ 0
  · rw [if_pos h1] at hret; exact absurd hret h1
  · rw [if_neg h1] at hret ⊢
    have hfirst := sampleThreads_first_push Z (traces.2.take p.thread_count) p
      (tickHeader duration heapinfo) hsome
    rcases hst : sampleThreads Z (traces.2.take p.thread_count) p (tickHeader duration heapinfo)
      with ⟨code, p1⟩
    rw [hst] at hret hfirst
    cases code with
    | some c =>
      simp only at hret
      have hc : c ≠ 0 := by
        intro h0
        subst h0
        exact sampleThreads_code_ne_zero Z _ _ _ (by rw [hst])
      exact absurd hret hc
    | none =>
      simp only at hret ⊢
      by_cases hf : freeErr ≠ 0
      · rw [if_pos hf] at hret; exact absurd hret hf
      · rw [if_neg hf]
        obtain ⟨words, more, hp1⟩ := hfirst rfl
        refine ⟨words, more, p1.event_buffer ++ [PROF_EV_NULL], ?_⟩
        simp only at hp1
        rw [(write_event_buffer_fields Z p1 now).1, hp1]

/-- Claim C4 (the code departs from it).  On a tick on which the stack capture
succeeds, no captured thread has a frame and `jvmtiFree` succeeds, `sample()`
returns `0` and the only byte range pushed to the sample stream is the
event-buffer chunk: the elapsed-time word and the heap-info vector are written
to the scratch buffer but never pushed, because the only `push` of the scratch
buffer sits inside the branch for a thread with frames. -/
theorem C4_tick_without_frames_drops_header (Z : Zstd) (p : Profile)
    (traces : Nat × List jvmtiStackInfo) (heapinfo : List Int) (duration : Int) (freeErr : Nat)
    (now : Int) (h1 : traces.1 = 0) (h2 : ∀ info ∈ traces.2, info.frame_count ≤ 0)
    (h3 : freeErr = 0) :
    (p.sample Z traces heapinfo duration freeErr now).1 = 0 ∧
    (p.sample Z traces heapinfo duration freeErr now).2.samples.pushed
      = p.samples.pushed ++ [wordsToBytes (p.event_buffer ++ [PROF_EV_NULL])] := by
  rw [sample_no_frames Z p traces heapinfo duration freeErr now h1 h2 h3]
  exact ⟨rfl, (write_event_buffer_fields Z p now).1⟩

/-- Witness for C4: one monitored thread with no frame, heap-info `[7, 8]`,
elapsed time 1000 ns.  The tick header would be the 20 bytes of the words
`1000, 7, 0, 8, 0`; the stream receives only the 8 bytes of the event chunk. -/
theorem C4_tick_without_frames_drops_header_witness :
    wordsToBytes (tickHeader 1000 [7, 8])
      = [232, 3, 0, 0, 7, 0, 0, 0, 0, 0, 0, 0, 8, 0, 0, 0, 0, 0, 0, 0] ∧
    (((Profile.ctor 1 [1] 64 1000 100 [] []).runBegin 100).sample zstdRef
      (0, [{ thread := 1, state := 0, frame_count := 0, frame_buffer := [] }])
      [7, 8] 1000 0 1100).1 = 0 ∧
    (((Profile.ctor 1 [1] 64 1000 100 [] []).runBegin 100).sample zstdRef
      (0, [{ thread := 1, state := 0, frame_count := 0, frame_buffer := [] }])
      [7, 8] 1000 0 1100).2.samples.pushed = [[0, 0, 0, 0, 0, 0, 0, 0]] := by
  have h := C4_tick_without_frames_drops_header zstdRef
    ((Profile.ctor 1 [1] 64 1000 100 [] []).runBegin 100)
    (0, [{ thread := 1, state := 0, frame_count := 0, frame_buffer := [] }])
    [7, 8] 1000 0 1100 rfl (by decide) rfl
  refine ⟨by decide, h.1, ?_⟩
  rw [h.2]; decide

/-! ## Theorems: the header written by `stop()` -/

theorem pushThreadNames_pushed (Z : Zstd) (J : Jvmti) (ts : List Nat) (z : ZStdCompressor) :
    (pushThreadNames Z J z ts).pushed = z.pushed ++ ts.map (fun t => cstr (J.threadName t)) := by
  induction ts generalizing z with
  | nil => simp [pushThreadNames]
  | cons t rest ih =>
    simp only [pushThreadNames, ih, push_pushed, List.map_cons, List.append_assoc,
      List.singleton_append]

theorem pushMethods_pushed (Z : Zstd) (J : Jvmti) (ms : MethodMap) (z : ZStdCompressor) :
    (pushMethods Z J z ms).pushed = z.pushed ++ ms.flatMap (fun e =>
      [leBytes 4 (e.2.id % 2 ^ 32), cstr (J.classSignature e.1), cstr (J.methodName e.1),
        cstr (J.methodSignature e.1)]) := by
  induction ms generalizing z with
  | nil => simp [pushMethods]
  | cons e rest ih =>
    simp only [pushMethods, ih, push_pushed, List.flatMap_cons, List.append_assoc,
      List.singleton_append, List.cons_append, List.nil_append]

/-- The byte ranges `stop()` hands to the header stream when `samples.end()`
reports no error. -/
theorem stop_header_pushed (Z : Zstd) (J : Jvmti) (p : Profile) (extra : List Nat)
    (hend : Z.isError (p.samples.end_ Z).ret = false) :
    (p.stop Z J extra).2.header.pushed = p.header.pushed ++
      ([quadsToBytes [toU64 p.num_samples, toU64 ((p.stop_time - p.start_time).tdiv 1000),
          extra.length, p.thread_count, p.methods.length], extra] ++
        (p.thread_list.take p.thread_count).map (fun t => cstr (J.threadName t)) ++
        p.methods.flatMap (fun e =>
          [leBytes 4 (e.2.id % 2 ^ 32), cstr (J.classSignature e.1), cstr (J.methodName e.1),
            cstr (J.methodSignature e.1)])) := by
  unfold Profile.stop
  simp only [hend, Bool.false_eq_true, if_false]
  split
  · simp only [end_pushed, pushMethods_pushed, pushThreadNames_pushed, push_pushed,
      List.append_assoc, List.singleton_append, List.cons_append, List.nil_append]
  · simp only [end_pushed, pushMethods_pushed, pushThreadNames_pushed, push_pushed,
      List.append_assoc, List.singleton_append, List.cons_append, List.nil_append]

theorem flatten_flatMap_lists {α : Type} (l : List α) (f : α → List (List Nat)) :
    (l.flatMap f).flatten = l.flatMap (fun a => (f a).flatten) := by
  induction l with
  | nil => rfl
  | cons a rest ih => simp [List.flatMap_cons, ih]

theorem flatten_map_lists {α : Type} (l : List α) (f : α → List Nat) :
    (l.map f).flatten = l.flatMap f := by
  induction l with
  | nil => rfl
  | cons a rest ih => simp [List.flatMap_cons, ih]

theorem leBytes4_inj (a b : Nat) (ha : a < 2 ^ 32) (hb : b < 2 ^ 32)
    (h : leBytes 4 a = leBytes 4 b) : a = b := by
  simp only [leBytes, List.cons.injEq, and_true] at h
  omega

/-- The table of a new session is the empty registry. -/
theorem ctor_registry (thread_count : Nat) (thread_list : List Nat) (sample_buffer_bytes : Nat)
    (sample_rate_us now : Int) (csSamples csHeader : List CodecCall) :
    (Profile.ctor thread_count thread_list sample_buffer_bytes sample_rate_us now csSamples
      csHeader).registry = (resolveAll Registry.fresh []).1 := rfl

/-- One iteration of the thread loop takes a table built by the frame loop
from the empty registry to another such table. -/
theorem sampleThread_registry_reached (Z : Zstd) (p : Profile) (buf : List Nat)
    (info : jvmtiStackInfo) (hs : List Nat)
    (h : p.registry = (resolveAll Registry.fresh hs).1) :
    ∃ more, (sampleThread Z p buf info).2.1.registry
      = (resolveAll Registry.fresh (hs ++ more)).1 := by
  unfold sampleThread
  split
  · exact ⟨[], by simpa using h⟩
  · split
    · exact ⟨[], by simpa using h⟩
    · refine ⟨(info.frame_buffer.take info.frame_count.toNat).map (fun f => f.method), ?_⟩
      rw [resolveAll_append, ← h]
      simp only
      split <;> rfl

/-- The thread loop takes a table built by the frame loop from the empty
registry to another such table. -/
theorem sampleThreads_registry_reached (Z : Zstd) (infos : List jvmtiStackInfo) (p : Profile)
    (buf : List Nat) (hs : List Nat) (h : p.registry = (resolveAll Registry.fresh hs).1) :
    ∃ more, (sampleThreads Z infos p buf).2.registry
      = (resolveAll Registry.fresh (hs ++ more)).1 := by
  induction infos generalizing p buf hs with
  | nil => exact ⟨[], by simpa [sampleThreads] using h⟩
  | cons info rest ih =>
    obtain ⟨m1, h1⟩ := sampleThread_registry_reached Z p buf info hs h
    simp only [sampleThreads]
    rcases hst : sampleThread Z p buf info with ⟨code, p1, buf1⟩
    rw [hst] at h1
    simp only at h1
    cases code with
    | some c => exact ⟨m1, h1⟩
    | none =>
      obtain ⟨m2, h2⟩ := ih p1 buf1 (hs ++ m1) h1
      exact ⟨m1 ++ m2, by simp only; rw [h2, List.append_assoc]⟩

/-- A tick takes a table built by the frame loop from the empty registry to
another such table. -/
theorem sample_registry_reached (Z : Zstd) (p : Profile) (traces : Nat × List jvmtiStackInfo)
    (heapinfo : List Int) (duration : Int) (freeErr : Nat) (now : Int) (hs : List Nat)
    (h : p.registry = (resolveAll Registry.fresh hs).1) :
    ∃ more, (p.sample Z traces heapinfo duration freeErr now).2.registry
      = (resolveAll Registry.fresh (hs ++ more)).1 := by
  unfold Profile.sample
  split
  · exact ⟨[], by simpa using h⟩
  · obtain ⟨m, hm⟩ := sampleThreads_registry_reached Z (traces.2.take p.thread_count) p
      (tickHeader duration heapinfo) hs h
    rcases hst : sampleThreads Z (traces.2.take p.thread_count) p (tickHeader duration heapinfo)
      with ⟨code, p1⟩
    rw [hst] at hm
    simp only at hm
    cases code with
    | some c => exact ⟨m, hm⟩
    | none =>
      simp only
      split
      · exact ⟨m, hm⟩
      · exact ⟨m, hm⟩

/-- In a table built by the frame loop from the empty registry the ids are
distinct and fit 32 bits. -/
theorem reached_ids_nodup (hs : List Nat) (hN : hs.dedup.length < 2 ^ 32) :
    ((resolveAll Registry.fresh hs).1.methods.map (fun e => e.2.id)).Nodup ∧
    ∀ e ∈ (resolveAll Registry.fresh hs).1.methods, e.2.id < 2 ^ 32 := by
  obtain ⟨h1, _, _, _⟩ := resolveAll_fresh hs hN
  constructor
  · rw [h1]; exact List.nodup_range' 1 _
  · intro e he
    have hmem : e.2.id ∈ (resolveAll Registry.fresh hs).1.methods.map (fun e => e.2.id) :=
      List.mem_map_of_mem _ he
    rw [h1, List.mem_range'_1] at hmem
    omega

/-- With distinct 32-bit ids, the id range of each table entry heads exactly
one of the method entries of the header. -/
theorem header_id_once (J : Jvmti) (ms : MethodMap)
    (hnd : (ms.map (fun e => e.2.id)).Nodup) (hlt : ∀ e ∈ ms, e.2.id < 2 ^ 32) :
    ∀ e ∈ ms, (ms.map (fun e =>
        [leBytes 4 (e.2.id % 2 ^ 32), cstr (J.classSignature e.1), cstr (J.methodName e.1),
          cstr (J.methodSignature e.1)])).countP
      (fun en => decide (en.head? = some (leBytes 4 (e.2.id % 2 ^ 32)))) = 1 := by
  intro e he
  rw [List.countP_map]
  have hcount : (ms.map (fun e => e.2.id)).count e.2.id = 1 :=
    List.count_eq_one_of_mem hnd (List.mem_map_of_mem _ he)
  rw [List.count_eq_countP, List.countP_map] at hcount
  rw [← hcount]
  apply List.countP_congr
  intro x hx
  have hx32 := hlt x hx
  have he32 := hlt e he
  simp only [Function.comp_apply, List.head?_cons, Option.some.injEq, decide_eq_true_eq,
    beq_iff_eq, Nat.mod_eq_of_lt hx32, Nat.mod_eq_of_lt he32]
  constructor
  · intro hb; exact leBytes4_inj _ _ hx32 he32 hb
  · intro hb; rw [hb]

/-- When `samples.end()` reports an error, `stop()` returns
`PROF_ERR_COMPRESS` and hands nothing to the header stream. -/
theorem stop_early_return (Z : Zstd) (J : Jvmti) (p : Profile) (extra : List Nat)
    (hend : Z.isError (p.samples.end_ Z).ret = true) :
    (p.stop Z J extra).1 = PROF_ERR_COMPRESS ∧
    (p.stop Z J extra).2.header.pushed = p.header.pushed := by
  unfold Profile.stop
  simp only [hend, if_true]
  exact ⟨trivial, trivial⟩

/-- Claim C8, as the code has it.  When `samples.end()` reports a codec error,
`stop()` returns `PROF_ERR_COMPRESS` and pushes nothing to the header stream.
Otherwise, for every session whose thread list has `T = thread_count` entries,
with `M` registered methods and `E` extra bytes, the byte ranges `stop()`
pushes to the header stream are, in order, the five unsigned 64-bit integers
(num_samples, (stop_time - start_time) in whole microseconds, E, T, M), the
extra bytes, one null-terminated name per thread in thread-list order, and
four ranges per table entry (32-bit id, class name, method name, signature,
the strings null-terminated); their concatenation is the header plaintext,
the number of method entries is the `M` of the method-count field, and, the
table being one that the frame loop of `sample()` built from the empty
registry (fewer than `2^32` distinct handles), each registered id heads
exactly one of the method entries. -/
theorem C8_header_layout (Z : Zstd) (J : Jvmti) (p : Profile) (extra : List Nat) :
    (Z.isError (p.samples.end_ Z).ret = true →
      (p.stop Z J extra).1 = PROF_ERR_COMPRESS ∧
      (p.stop Z J extra).2.header.pushed = p.header.pushed) ∧
    (p.thread_count = p.thread_list.length →
      Z.isError (p.samples.end_ Z).ret = false →
      ∃ entries : List (List (List Nat)),
        entries = p.methods.map (fun e =>
          [leBytes 4 (e.2.id % 2 ^ 32), cstr (J.classSignature e.1), cstr (J.methodName e.1),
            cstr (J.methodSignature e.1)]) ∧
        entries.length = p.methods.length ∧
        (p.stop Z J extra).2.header.pushed = p.header.pushed ++
          ([quadsToBytes [toU64 p.num_samples, toU64 ((p.stop_time - p.start_time).tdiv 1000),
              extra.length, p.thread_list.length, p.methods.length], extra] ++
            p.thread_list.map (fun t => cstr (J.threadName t)) ++ entries.flatten) ∧
        ((p.stop Z J extra).2.header.pushed.drop p.header.pushed.length).flatten =
          quadsToBytes [toU64 p.num_samples, toU64 ((p.stop_time - p.start_time).tdiv 1000),
              extra.length, p.thread_list.length, p.methods.length] ++ extra ++
            p.thread_list.flatMap (fun t => cstr (J.threadName t)) ++
            p.methods.flatMap (fun e =>
              leBytes 4 (e.2.id % 2 ^ 32) ++ cstr (J.classSignature e.1) ++
                cstr (J.methodName e.1) ++ cstr (J.methodSignature e.1)) ∧
        (∀ hs : List Nat, hs.dedup.length < 2 ^ 32 →
          p.registry = (resolveAll Registry.fresh hs).1 →
          ∀ e ∈ p.methods,
            entries.countP (fun en => decide (en.head? = some (leBytes 4 (e.2.id % 2 ^ 32))))
              = 1)) := by
  refine ⟨stop_early_return Z J p extra, ?_⟩
  intro hT hend
  have h := stop_header_pushed Z J p extra hend
  have htake : p.thread_list.take p.thread_count = p.thread_list := by rw [hT]; simp
  rw [htake, hT] at h
  refine ⟨_, rfl, by simp, ?_, ?_, ?_⟩
  · rw [h, List.flatMap_def]
  · rw [h, List.drop_left, List.flatten_append, List.flatten_append, flatten_map_lists,
      flatten_flatMap_lists]
    simp [List.append_assoc]
  · intro hs hN hreg
    have hm : p.methods = (resolveAll Registry.fresh hs).1.methods := by
      rw [← hreg]; rfl
    obtain ⟨hnd, hlt⟩ := reached_ids_nodup hs hN
    rw [← hm] at hnd hlt
    exact header_id_once J p.methods hnd hlt

/-- Witness for C8: a stopped session with one thread named `"T"`, two extra
bytes, and the table that three resolutions of method 11 leave. -/
theorem C8_header_layout_witness :
    ∃ entries : List (List (List Nat)),
      entries = [[[1, 0, 0, 0], [76, 0], [109, 0], [40, 41, 86, 0]]] ∧
      ((({ Profile.ctor 1 [1] 64 1000 100 [] [] with
            methods := [(11, { id := 1, samples := 3 })], last_method_id := 1,
            num_samples := 3, start_time := 100, stop_time := 5100,
            running := false } : Profile).stop zstdRef
          { threadName := fun _ => [84], classSignature := fun _ => [76],
            methodName := fun _ => [109], methodSignature := fun _ => [40, 41, 86] }
          [9, 8]).2.header.pushed)
        = [quadsToBytes [3, 5, 2, 1, 1], [9, 8], [84, 0]] ++ entries.flatten ∧
      entries.countP (fun en => decide (en.head? = some (leBytes 4 (1 % 2 ^ 32)))) = 1 := by
  obtain ⟨entries, h1, _, h3, _, h5⟩ := (C8_header_layout zstdRef
    { threadName := fun _ => [84], classSignature := fun _ => [76],
      methodName := fun _ => [109], methodSignature := fun _ => [40, 41, 86] }
    ({ Profile.ctor 1 [1] 64 1000 100 [] [] with
        methods := [(11, { id := 1, samples := 3 })], last_method_id := 1,
        num_samples := 3, start_time := 100, stop_time := 5100,
        running := false } : Profile) [9, 8]).2 (by decide) (by decide)
  have h6 := h5 [11, 11, 11] (by decide) (by decide) (11, { id := 1, samples := 3 })
    (by decide)
  subst h1
  refine ⟨[[[1, 0, 0, 0], [76, 0], [109, 0], [40, 41, 86, 0]]], rfl, ?_, h6⟩
  rw [h3]; decide

/-- Counterexample to C8 as stated: on a session whose codec answers
`ZSTD_endStream` of the sample stream with a non-retryable error, `stop()`
returns `PROF_ERR_COMPRESS` and pushes nothing to the header stream. -/
theorem C8_no_header_when_samples_end_fails :
    ((Profile.ctor 1 [1] 64 1000 100 [{ ret := 2 ^ 64 - 1, consumed := 0, produced := [] }] []).stop
        zstdRef
        { threadName := fun _ => [84], classSignature := fun _ => [76],
          methodName := fun _ => [109], methodSignature := fun _ => [40, 41, 86] }
        [9, 8]).1 = PROF_ERR_COMPRESS ∧
    ((Profile.ctor 1 [1] 64 1000 100 [{ ret := 2 ^ 64 - 1, consumed := 0, produced := [] }] []).stop
        zstdRef
        { threadName := fun _ => [84], classSignature := fun _ => [76],
          methodName := fun _ => [109], methodSignature := fun _ => [40, 41, 86] }
        [9, 8]).2.header.pushed = [] := by
  decide

/-! ## Theorems: the control surface -/

theorem leBytes_length (n v : Nat) : (leBytes n v).length = n := by
  induction n generalizing v with
  | zero => rfl
  | succ n ih => simp [leBytes, ih]

theorem toJint_of_small (v : Nat) (h : v < 2 ^ 31) : toJint v = (v : Int) := by
  unfold toJint
  have h1 : v % 2 ^ 32 = v := Nat.mod_eq_of_lt (by omega)
  rw [h1, if_pos h]
  rfl

/-- Filling the next `len` bytes of an array that is `pre` followed by zeros. -/
theorem SetByteArrayRegion_fill (pre : List Nat) (k len : Nat) (buf : List Nat)
    (hlen : len ≤ buf.length) (hk : len ≤ k) :
    SetByteArrayRegion (some (pre ++ List.replicate k 0)) (pre.length : Int) (len : Int) buf
      = some ((pre ++ buf.take len) ++ List.replicate (k - len) 0) := by
  unfold SetByteArrayRegion
  simp only
  have hcond : ¬ ((pre.length : Int) < 0 ∨ (len : Int) < 0 ∨
      (pre.length : Int) + (len : Int) > ((pre ++ List.replicate k 0).length : Int)) := by
    simp only [List.length_append, List.length_replicate]
    push_cast
    omega
  rw [if_neg hcond]
  congr 1
  have htl : (buf.take len).length = len := by simp [List.length_take, hlen]
  unfold writeAt
  simp only [Int.toNat_ofNat, htl]
  rw [List.take_left, List.drop_append, List.drop_replicate]

/-- Claim C7, as the code has it.  With no session `getBuffer` returns null.
For an existing session, with `H = header.out.pos` and `S = samples.out.pos`
inside their buffers and `2 + 8 + H + S` below `2^31` (the length is passed to
`NewByteArray` as a 32-bit signed `jsize`), it returns the byte array of
length `2 + 8 + H + S` made of the 2-byte marker, `H` as an 8-byte
little-endian integer, the first `H` bytes of the header stream's destination
buffer and the first `S` bytes of the sample stream's destination buffer. -/
theorem C7_getBuffer_layout (c : Control) :
    (c.active_profile = none → getBuffer c = none) ∧
    (∀ p, c.active_profile = some p →
      2 + 8 + p.header.out.pos + p.samples.out.pos < 2 ^ 31 →
      p.header.out.pos ≤ p.header.data.length →
      p.samples.out.pos ≤ p.samples.data.length →
      getBuffer c = some (leBytes 2 byteMarker ++ leBytes 8 p.header.out.pos ++
        p.header.data.take p.header.out.pos ++ p.samples.data.take p.samples.out.pos) ∧
      (leBytes 2 byteMarker ++ leBytes 8 p.header.out.pos ++
        p.header.data.take p.header.out.pos ++ p.samples.data.take p.samples.out.pos).length
        = 2 + 8 + p.header.out.pos + p.samples.out.pos) := by
  constructor
  · intro h
    unfold getBuffer
    rw [h]
  · intro p hp hsum hH hS
    have hHm : p.header.out.pos % 2 ^ 64 = p.header.out.pos := Nat.mod_eq_of_lt (by omega)
    have hSm : p.samples.out.pos % 2 ^ 64 = p.samples.out.pos := Nat.mod_eq_of_lt (by omega)
    have hnew : NewByteArray (toJint (2 + 8 + p.header.out.pos + p.samples.out.pos))
        = some (([] : List Nat) ++
            List.replicate (2 + 8 + p.header.out.pos + p.samples.out.pos) 0) := by
      rw [toJint_of_small _ hsum]
      unfold NewByteArray
      rw [if_neg (by omega)]
      simp only [List.nil_append, Int.toNat_ofNat]
    have s1 := SetByteArrayRegion_fill [] (2 + 8 + p.header.out.pos + p.samples.out.pos) 2
      (leBytes 2 byteMarker) (by rw [leBytes_length]) (by omega)
    have s2 := SetByteArrayRegion_fill ([] ++ (leBytes 2 byteMarker).take 2)
      (2 + 8 + p.header.out.pos + p.samples.out.pos - 2) 8
      (leBytes 8 p.header.out.pos) (by rw [leBytes_length]) (by omega)
    have s3 := SetByteArrayRegion_fill
      (([] ++ (leBytes 2 byteMarker).take 2) ++ (leBytes 8 p.header.out.pos).take 8)
      (2 + 8 + p.header.out.pos + p.samples.out.pos - 2 - 8) p.header.out.pos
      p.header.data hH (by omega)
    have s4 := SetByteArrayRegion_fill
      ((([] ++ (leBytes 2 byteMarker).take 2) ++ (leBytes 8 p.header.out.pos).take 8)
        ++ p.header.data.take p.header.out.pos)
      (2 + 8 + p.header.out.pos + p.samples.out.pos - 2 - 8 - p.header.out.pos)
      p.samples.out.pos p.samples.data hS (by omega)
    have l2 : ((leBytes 2 byteMarker).take 2) = leBytes 2 byteMarker := by
      rw [List.take_of_length_le]; rw [leBytes_length]
    have l8 : ((leBytes 8 p.header.out.pos).take 8) = leBytes 8 p.header.out.pos := by
      rw [List.take_of_length_le]; rw [leBytes_length]
    simp only [l2, l8, List.nil_append, List.length_nil, List.length_append, leBytes_length,
      List.length_take, Nat.min_eq_left hH] at s1 s2 s3 s4
    have hlast : 2 + 8 + p.header.out.pos + p.samples.out.pos - 2 - 8 - p.header.out.pos
        - p.samples.out.pos = 0 := by omega
    rw [hlast] at s4
    constructor
    · unfold getBuffer
      rw [hp]
      simp only [hHm, hSm]
      rw [hnew, toJint_of_small _ (by omega : p.header.out.pos < 2 ^ 31),
        toJint_of_small _ (by omega : p.samples.out.pos < 2 ^ 31)]
      have e1 : ((0 : Int)) = ((0 : Nat) : Int) := rfl
      have e2 : ((0 : Int) + 2) = ((2 : Nat) : Int) := rfl
      have e3 : ((0 : Int) + 2 + 8) = (((2 + 8 : Nat)) : Int) := rfl
      have e4 : ((0 : Int) + 2 + 8 + (p.header.out.pos : Int))
          = (((2 + 8 + p.header.out.pos : Nat)) : Int) := by push_cast; ring
      have e5 : ((2 : Int)) = ((2 : Nat) : Int) := rfl
      have e6 : ((8 : Int)) = ((8 : Nat) : Int) := rfl
      rw [e4, e3, e2]
      rw [show SetByteArrayRegion
          (some ([] ++ List.replicate (2 + 8 + p.header.out.pos + p.samples.out.pos) 0))
          0 2 (leBytes 2 byteMarker) = _ from s1]
      rw [show SetByteArrayRegion _ ((2 : Nat) : Int) 8 (leBytes 8 p.header.out.pos) = _ from s2]
      rw [s3, s4]
      simp
    · simp only [List.length_append, leBytes_length, List.length_take]
      omega

/-- Witness for C7: a session whose header buffer holds 3 bytes and whose
sample buffer holds 2. -/
theorem C7_getBuffer_layout_witness :
    getBuffer
      { jvmti := true, profiler_klass := some 5, get_heap_info := some 6,
        active_profile := some
          { Profile.ctor 1 [1] 64 1000 100 [] [] with
            header :=
              { out := { size := 4, pos := 3 }, data := [40, 181, 47, 253], cstream := [],
                last_error := 0, pushed := [] },
            samples :=
              { out := { size := 4, pos := 2 }, data := [1, 2, 3, 4], cstream := [],
                last_error := 0, pushed := [] } } }
      = some [80, 82, 3, 0, 0, 0, 0, 0, 0, 0, 40, 181, 47, 1, 2] := by
  have h := (C7_getBuffer_layout
      { jvmti := true, profiler_klass := some 5, get_heap_info := some 6,
        active_profile := some
          { Profile.ctor 1 [1] 64 1000 100 [] [] with
            header :=
              { out := { size := 4, pos := 3 }, data := [40, 181, 47, 253], cstream := [],
                last_error := 0, pushed := [] },
            samples :=
              { out := { size := 4, pos := 2 }, data := [1, 2, 3, 4], cstream := [],
                last_error := 0, pushed := [] } } }).2 _ rfl (by decide) (by decide) (by decide)
  rw [h.1]; decide

/-- Counterexample to C7 as stated: with `H = 0` and `S = 2^31 - 1`, both below
`2^31`, the length `2 + 8 + H + S` does not fit a `jsize`; `NewByteArray`
yields no array and `getBuffer` returns null, not an array of that length. -/
theorem C7_getBuffer_null_when_total_overflows :
    getBuffer
      { jvmti := true, profiler_klass := some 5, get_heap_info := some 6,
        active_profile := some
          { Profile.ctor 1 [1] 64 1000 100 [] [] with
            header :=
              { out := { size := 4096, pos := 0 }, data := List.replicate 4096 0,
                cstream := [], last_error := 0, pushed := [] },
            samples :=
              { out := { size := 2 ^ 31 - 1, pos := 2 ^ 31 - 1 },
                data := List.replicate (2 ^ 31 - 1) 0, cstream := [], last_error := 0,
                pushed := [] } } }
      = none := by
  decide

/-- Claim C9.  With JVMTI available: `start0` called while a session exists
(running or stopped, not yet freed) returns `PROF_ERR_ALREADY_RUNNING`
(2000000) and leaves the globals, the session among them, unchanged; `stop0`
and `free` called while no session exists return `PROF_ERR_NOT_RUNNING`
(3000000) and leave the state without a session. -/
theorem C9_control_surface_errors (Z : Zstd) (J : Jvmti) (c : Control) (hj : c.jvmti = true) :
    (∀ (p : Profile) (klass : Nat) (heapinfoId : Option Nat) (threads : List Nat)
        (sample_size_bytes : Nat) (sample_rate_us now : Int)
        (csSamples csHeader : List CodecCall) (runAgentThread : Nat),
      c.active_profile = some p →
      start0 c klass heapinfoId threads sample_size_bytes sample_rate_us now csSamples csHeader
        runAgentThread = (2000000, c)) ∧
    (c.active_profile = none →
      (∀ extra, stop0 Z J c extra = (3000000, c)) ∧ free c = some (3000000, c)) ∧
    PROF_ERR_ALREADY_RUNNING = 2000000 ∧ PROF_ERR_NOT_RUNNING = 3000000 := by
  refine ⟨?_, ?_, rfl, rfl⟩
  · intro p klass heapinfoId threads sz rate now cs1 cs2 rat hp
    unfold start0
    rw [if_neg (by simp [hj]), if_pos (by simp [hp])]
    rfl
  · intro hnone
    constructor
    · intro extra
      unfold stop0
      rw [if_neg (by simp [hj]), hnone]
      rfl
    · unfold free
      rw [hnone]
      rfl

/-- Witness for C9: a second `start0` on a live session, and `stop0` and `free`
on the idle state. -/
theorem C9_control_surface_errors_witness :
    start0
        { jvmti := true, profiler_klass := some 5, get_heap_info := some 6,
          active_profile := some (Profile.ctor 1 [1] 64 1000 100 [] []) }
        5 (some 6) [1, 2] 64 1000 200 [] [] 0
      = (2000000,
          { jvmti := true, profiler_klass := some 5, get_heap_info := some 6,
            active_profile := some (Profile.ctor 1 [1] 64 1000 100 [] []) }) ∧
    stop0 zstdRef
        { threadName := fun _ => [84], classSignature := fun _ => [76],
          methodName := fun _ => [109], methodSignature := fun _ => [40, 41, 86] }
        { jvmti := true, profiler_klass := none, get_heap_info := none, active_profile := none }
        []
      = (3000000,
          { jvmti := true, profiler_klass := none, get_heap_info := none,
            active_profile := none }) ∧
    free { jvmti := true, profiler_klass := none, get_heap_info := none, active_profile := none }
      = some (3000000,
          { jvmti := true, profiler_klass := none, get_heap_info := none,
            active_profile := none }) :=
  ⟨(C9_control_surface_errors zstdRef
      { threadName := fun _ => [84], classSignature := fun _ => [76],
        methodName := fun _ => [109], methodSignature := fun _ => [40, 41, 86] }
      { jvmti := true, profiler_klass := some 5, get_heap_info := some 6,
        active_profile := some (Profile.ctor 1 [1] 64 1000 100 [] []) } rfl).1
      _ 5 (some 6) [1, 2] 64 1000 200 [] [] 0 rfl,
    ((C9_control_surface_errors zstdRef
      { threadName := fun _ => [84], classSignature := fun _ => [76],
        methodName := fun _ => [109], methodSignature := fun _ => [40, 41, 86] }
      { jvmti := true, profiler_klass := none, get_heap_info := none, active_profile := none }
      rfl).2.1 rfl).1 [],
    ((C9_control_surface_errors zstdRef
      { threadName := fun _ => [84], classSignature := fun _ => [76],
        methodName := fun _ => [109], methodSignature := fun _ => [40, 41, 86] }
      { jvmti := true, profiler_klass := none, get_heap_info := none, active_profile := none }
      rfl).2.1 rfl).2⟩

/-! ## Theorems: the zstd stream binding -/

theorem and_low31 (x : Nat) : x &&& 0x7FFFFFFF = x % 2 ^ 31 :=
  Nat.and_pow_two_sub_one_eq_mod x 31

theorem signExtend32_zero : signExtend32 (((0 &&& 1) <<< 31) % 2 ^ 32) = 0 := by decide

/-- The `int` value `1 << 31` becomes the `jlong` pattern with bits 63..31
set. -/
theorem signExtend32_sign_bit :
    signExtend32 (((1 &&& 1) <<< 31) % 2 ^ 32) = 0xFFFFFFFF80000000 := by decide

/-- Or-ing the sign-extended flag into a value whose low 32 bits are clear
leaves nothing of its high 32 bits. -/
theorem shiftLeft_or_sign_bit (k : Nat) (hk : k < 2 ^ 32) :
    (k <<< 32) ||| 0xFFFFFFFF80000000 = 0xFFFFFFFF80000000 := by
  have hC : (0xFFFFFFFF80000000 : Nat) = (2 ^ 33 - 1) <<< 31 := by decide
  rw [hC]
  apply Nat.eq_of_testBit_eq
  intro i
  rw [Nat.testBit_or, Nat.testBit_shiftLeft, Nat.testBit_shiftLeft, Nat.testBit_two_pow_sub_one]
  by_cases h1 : i ≥ 32
  · by_cases h2 : i - 32 < 32
    · have h3 : i - 31 < 33 := by omega
      have h4 : i ≥ 31 := by omega
      simp [h1, h3, h4]
    · have hk2 : k.testBit (i - 32) = false :=
        Nat.testBit_lt_two_pow
          (lt_of_lt_of_le hk (Nat.pow_le_pow_right (by norm_num) (by omega)))
      simp [hk2]
  · simp [h1]

/-- The packed value when the flag is clear: `consumed * 2^32 + outBuffer.pos`. -/
theorem packedOut_without_more (inBufferPos : Nat) (inOff : Int) (o : Nat)
    (hk : (inBufferPos + 2 ^ 64 - toU64 inOff) % 2 ^ 64 < 2 ^ 31) (ho : o < 2 ^ 31) :
    packedOut inBufferPos inOff false o
      = 2 ^ 32 * ((inBufferPos + 2 ^ 64 - toU64 inOff) % 2 ^ 64) + o := by
  unfold packedOut
  generalize (inBufferPos + 2 ^ 64 - toU64 inOff) % 2 ^ 64 = k at hk ⊢
  have h0 : signExtend32 ((((if false = true then 1 else 0) &&& 1) <<< 31) % 2 ^ 32) = 0 :=
    signExtend32_zero
  rw [h0, Nat.or_zero, and_low31, Nat.mod_eq_of_lt ho, Nat.shiftLeft_eq,
    Nat.mod_eq_of_lt (by omega), Nat.mul_comm k, ← Nat.mul_add_lt_is_or (by omega)]

/-- The packed value when the flag is set: bits 63..31 are all ones, whatever
was consumed. -/
theorem packedOut_with_more (inBufferPos : Nat) (inOff : Int) (o : Nat)
    (hk : (inBufferPos + 2 ^ 64 - toU64 inOff) % 2 ^ 64 < 2 ^ 31) (ho : o < 2 ^ 31) :
    packedOut inBufferPos inOff true o = 0xFFFFFFFF80000000 + o := by
  unfold packedOut
  generalize (inBufferPos + 2 ^ 64 - toU64 inOff) % 2 ^ 64 = k at hk ⊢
  have h1 : signExtend32 ((((if true = true then 1 else 0) &&& 1) <<< 31) % 2 ^ 32)
      = 0xFFFFFFFF80000000 := signExtend32_sign_bit
  have hmod : (k <<< 32) % 2 ^ 64 = k <<< 32 := by
    rw [Nat.shiftLeft_eq]; exact Nat.mod_eq_of_lt (by omega)
  rw [h1, hmod, shiftLeft_or_sign_bit k (by omega), and_low31, Nat.mod_eq_of_lt ho]
  have hC : (0xFFFFFFFF80000000 : Nat) = 2 ^ 31 * (2 ^ 33 - 1) := by decide
  rw [hC, ← Nat.mul_add_lt_is_or ho]

/-- Claim C11 (the code departs from it).  For every `compress0` call on a
non-null stream in which the codec reports no error, with `consumed =
inBuffer.pos - inOff` and `outBuffer.pos` both below `2^31`: when the codec
result is `0` (flag clear) the returned value has bits 63..32 equal to
`consumed`, bit 31 clear and bits 30..0 equal to `outBuffer.pos`; but when the
codec result is positive (flag set), bit 31 is set, bits 30..0 are
`outBuffer.pos`, and bits 63..32 are all ones instead of `consumed`: the flag
term `(more & 1) << 31` is an `int`, and `|` sign-extends it to 64 bits. -/
theorem C11_more_flag_overwrites_consumed (Z : Zstd) (stream : Nat) (inOff inLen : Int)
    (out : List Nat) (dstOk srcOk : Bool) (codec : Int → CodecCall) (op : Int)
    (hstream : stream ≠ 0)
    (hok : Z.isError (compress0Call inOff inLen out dstOk srcOk codec op).result = false)
    (hc : consumed0 (compress0Call inOff inLen out dstOk srcOk codec op) inOff < 2 ^ 31)
    (ho : (compress0Call inOff inLen out dstOk srcOk codec op).outBuffer.pos < 2 ^ 31) :
    ((compress0Call inOff inLen out dstOk srcOk codec op).result = 0 →
      (compress0 Z stream inOff inLen out dstOk srcOk codec op).ret >>> 32
        = consumed0 (compress0Call inOff inLen out dstOk srcOk codec op) inOff ∧
      ((compress0 Z stream inOff inLen out dstOk srcOk codec op).ret >>> 31) &&& 1 = 0 ∧
      (compress0 Z stream inOff inLen out dstOk srcOk codec op).ret &&& 0x7FFFFFFF
        = (compress0Call inOff inLen out dstOk srcOk codec op).outBuffer.pos) ∧
    (0 < (compress0Call inOff inLen out dstOk srcOk codec op).result →
      (compress0 Z stream inOff inLen out dstOk srcOk codec op).ret >>> 32 = 2 ^ 32 - 1 ∧
      ((compress0 Z stream inOff inLen out dstOk srcOk codec op).ret >>> 31) &&& 1 = 1 ∧
      (compress0 Z stream inOff inLen out dstOk srcOk codec op).ret &&& 0x7FFFFFFF
        = (compress0Call inOff inLen out dstOk srcOk codec op).outBuffer.pos) := by
  unfold consumed0 at hc ⊢
  constructor
  · intro hres
    have hret : (compress0 Z stream inOff inLen out dstOk srcOk codec op).ret
        = packedOut (compress0Call inOff inLen out dstOk srcOk codec op).inBuffer.pos inOff false
            (compress0Call inOff inLen out dstOk srcOk codec op).outBuffer.pos := by
      have hok0 : Z.isError 0 = false := by rw [← hres]; exact hok
      unfold compress0
      rw [if_neg hstream]
      simp only [hok0, hres, Bool.false_eq_true, if_false, gt_iff_lt, Nat.lt_irrefl,
        decide_False]
    rw [hret, packedOut_without_more _ _ _ hc ho, and_low31, Nat.and_one_is_mod,
      Nat.shiftRight_eq_div_pow, Nat.shiftRight_eq_div_pow]
    refine ⟨by omega, by omega, by omega⟩
  · intro hres
    have hret : (compress0 Z stream inOff inLen out dstOk srcOk codec op).ret
        = packedOut (compress0Call inOff inLen out dstOk srcOk codec op).inBuffer.pos inOff true
            (compress0Call inOff inLen out dstOk srcOk codec op).outBuffer.pos := by
      unfold compress0
      rw [if_neg hstream]
      simp only [hok, hres, Bool.false_eq_true, if_false, gt_iff_lt, decide_True]
    rw [hret, packedOut_with_more _ _ _ hc ho, and_low31, Nat.and_one_is_mod,
      Nat.shiftRight_eq_div_pow, Nat.shiftRight_eq_div_pow]
    refine ⟨by omega, by omega, by omega⟩

/-- Witness for C11: a call on stream 1 with `inOff = 0`, `inLen = 8` and a
16-byte output array, in which the codec takes 3 bytes, writes 2 and returns
5.  The returned value is `0xFFFFFFFF80000002`: its bits 63..32 read
`4294967295`, not the 3 bytes consumed. -/
theorem C11_more_flag_overwrites_consumed_witness :
    consumed0 (compress0Call 0 8 (List.replicate 16 0) true true
      (fun _ => { ret := 5, consumed := 3, produced := [40, 181] }) 0) 0 = 3 ∧
    (compress0 zstdRef 1 0 8 (List.replicate 16 0) true true
      (fun _ => { ret := 5, consumed := 3, produced := [40, 181] }) 0).ret
      = 0xFFFFFFFF80000002 ∧
    (compress0 zstdRef 1 0 8 (List.replicate 16 0) true true
      (fun _ => { ret := 5, consumed := 3, produced := [40, 181] }) 0).ret >>> 32
      = 2 ^ 32 - 1 :=
  ⟨by decide, by decide,
    ((C11_more_flag_overwrites_consumed zstdRef 1 0 8 (List.replicate 16 0) true true
      (fun _ => { ret := 5, consumed := 3, produced := [40, 181] }) 0
      (by decide) (by decide) (by decide) (by decide)).2 (by decide)).1⟩

end Profiler
